import Mathlib

/-!
Verification of the universal-agent-sdk agent engine against its
natural-language specification.  The definitions below are a shallow
embedding of the Python source: the client agent loop
(`client.py`), the hook pipeline, the tool executor, the OpenAI- and
Anthropic-dialect streaming accumulators (`providers/openai.py`,
`providers/claude.py`), the Azure client construction, and the docker
session manager (`examples/docker/api/session_manager.py`).
Wall-clock durations are abstracted to 0 and the external JSON parser
(`json.loads`) is an abstract parameter; everything else follows the
source line by line.
-/

namespace UAS

/-- Minimal JSON value universe, standing for Python dict/list/str/... values
that travel through the engine (tool inputs, stream deltas). -/
inductive Json where
  | null : Json
  | bool (b : Bool) : Json
  | num (n : Int) : Json
  | str (s : String) : Json
  | arr (elems : List Json) : Json
  | obj (fields : List (String × Json)) : Json
deriving Repr

/-- The empty JSON object, Python literal curly-braces. -/
def Json.emptyObj : Json := Json.obj []

/-- Python truthiness of a JSON value (None, False, 0, empty string,
empty list and empty dict are falsy). -/
def Json.pyTruthy : Json → Bool
  | Json.null => false
  | Json.bool b => b
  | Json.num n => n != 0
  | Json.str s => s != ""
  | Json.arr l => !l.isEmpty
  | Json.obj l => !l.isEmpty

/-- Field lookup in a JSON object (Python dict .get). -/
def Json.getField : Json → String → Option Json
  | Json.obj fields, k => (fields.find? (fun p => p.1 == k)).map (·.2)
  | _, _ => none

mutual
/-- A deterministic rendering of JSON values, standing for json.dumps. -/
def Json.render : Json → String
  | Json.null => "null"
  | Json.bool true => "true"
  | Json.bool false => "false"
  | Json.num n => toString n
  | Json.str s => "\x22" ++ s ++ "\x22"
  | Json.arr l => "[" ++ Json.renderList l ++ "]"
  | Json.obj l => "\x7b" ++ Json.renderFields l ++ "\x7d"

/-- Render a list of JSON values, comma separated. -/
def Json.renderList : List Json → String
  | [] => ""
  | [x] => Json.render x
  | x :: xs => Json.render x ++ ", " ++ Json.renderList xs

/-- Render the fields of a JSON object, comma separated. -/
def Json.renderFields : List (String × Json) → String
  | [] => ""
  | [(k, v)] => "\x22" ++ k ++ "\x22: " ++ Json.render v
  | (k, v) :: xs => "\x22" ++ k ++ "\x22: " ++ Json.render v ++ ", " ++ Json.renderFields xs
end

/-- types.py FinishReason enum. -/
inductive FinishReason where
  | stop | length | tool_use | content_filter | error
deriving Repr, DecidableEq

/-- types.py Usage dataclass. -/
structure Usage where
  prompt_tokens : Nat := 0
  completion_tokens : Nat := 0
  total_tokens : Nat := 0
deriving Repr, DecidableEq

/-- types.py ToolUseBlock dataclass. -/
structure ToolUseBlock where
  id : String
  name : String
  input : Json
deriving Repr

/-- types.py content-block union (tool_result elided: unused by the engine
paths under verification). -/
inductive ContentBlock where
  | text (text : String)
  | image (source : String) (media_type : String)
  | thinking (thinking : String) (signature : Option String)
  | toolUse (block : ToolUseBlock)
deriving Repr

/-- types.py AssistantMessage dataclass. -/
structure AssistantMessage where
  content : List ContentBlock
  model : Option String := none
  finish_reason : Option FinishReason := none
deriving Repr

/-- types.py message union over roles. -/
inductive Message where
  | user (content : String)
  | assistant (a : AssistantMessage)
  | system (content : String)
  | tool (content : String) (tool_call_id : String)
deriving Repr

/-- types.py ResultMessage dataclass (fields used by the engine). -/
structure ResultMessage where
  is_error : Bool := false
  num_turns : Nat := 1
  session_id : Option String := none
  usage : Option Usage := none
  finish_reason : Option FinishReason := none
deriving Repr

/-- types.py StreamEvent dataclass; the delta dict is a JSON object. -/
structure StreamEvent where
  event_type : String
  index : Option Nat := none
  delta : Option Json := none
deriving Repr

/-- types.py AnyMessage union. -/
inductive AnyMessage where
  | msg (m : Message)
  | result (r : ResultMessage)
  | event (e : StreamEvent)
deriving Repr

/-- Whether an AnyMessage is a ResultMessage (isinstance check). -/
def AnyMessage.isResult : AnyMessage → Bool
  | AnyMessage.result _ => true
  | _ => false

/-- The ResultMessages among a yielded sequence. -/
def resultsOf (l : List AnyMessage) : List ResultMessage :=
  l.filterMap fun m => match m with
    | AnyMessage.result r => some r
    | _ => none

/-- The 'type' entry of a StreamEvent delta, when the delta is an object
with a string in that field. -/
def StreamEvent.deltaType (e : StreamEvent) : Option String :=
  match e.delta with
  | some d => match d.getField "type" with
    | some (Json.str s) => some s
    | _ => none
  | none => none

/-! ## Hook pipeline (types.py hook types, client.py _execute_hooks) -/

/-- types.py HookEvent literal union. -/
inductive HookEvent where
  | SessionStart | PreToolUse | PostToolUse | PreCompletion | PostCompletion | OnError
deriving Repr, DecidableEq

/-- The hookSpecificOutput sub-dict of a hook output; Option encodes
key presence in the Python dict. -/
structure HookSpecificOutput where
  permissionDecision : Option String := none
  permissionDecisionReason : Option String := none
  additionalContext : Option String := none
deriving Repr, DecidableEq

/-- A hook output dict; Option encodes key presence.  Note that
hookSpecificOutput is a single dict value: a dict.update replaces it
whole, it is never merged field-wise. -/
structure HookOutput where
  continue_ : Option Bool := none
  stopReason : Option String := none
  modified_input : Option Json := none
  hookSpecificOutput : Option HookSpecificOutput := none
deriving Repr

/-- Hook input dicts (the union of the per-event TypedDict fields). -/
structure HookInput where
  session_id : String
  hook_event_name : String
  tool_name : Option String := none
  tool_input : Option Json := none
  tool_response : Option String := none
  error : Option String := none
  error_type : Option String := none
deriving Repr

/-- client.py HookContext. -/
structure HookContext where
  session_id : String
  tool_use_id : Option String
deriving Repr

/-- A hook callback.  `none` models the callback raising or timing out,
which _execute_hooks logs and skips. -/
def Hook : Type := HookInput → Option String → HookContext → Option HookOutput

/-- types.py HookMatcher (timeout only affects skipping, which the
`none` hook result already covers). -/
structure HookMatcher where
  matcher : Option String := none
  hooks : List Hook := []

/-- Python truthiness of a hook-output dict: empty means no recognized
key is present. -/
def HookOutput.pyTruthy (o : HookOutput) : Bool :=
  o.continue_.isSome || o.stopReason.isSome || o.modified_input.isSome ||
    o.hookSpecificOutput.isSome

/-- dict.update of hook outputs: keys present in the later output
override, absent keys keep the earlier value. -/
def mergeHookOutput (c o : HookOutput) : HookOutput where
  continue_ := o.continue_.orElse fun _ => c.continue_
  stopReason := o.stopReason.orElse fun _ => c.stopReason
  modified_input := o.modified_input.orElse fun _ => c.modified_input
  hookSpecificOutput := o.hookSpecificOutput.orElse fun _ => c.hookSpecificOutput

/-- client.py _execute_hooks inner loop over one matcher's hooks.  The
Bool result records the early return on continue_ == False. -/
def execHooksList (inp : HookInput) (tuid : Option String) (ctx : HookContext)
    (combined : HookOutput) : List Hook → HookOutput × Bool
  | [] => (combined, false)
  | h :: rest =>
    match h inp tuid ctx with
    | none => execHooksList inp tuid ctx combined rest
    | some output =>
      if output.pyTruthy then
        let merged := mergeHookOutput combined output
        if output.continue_ = some false then (merged, true)
        else execHooksList inp tuid ctx merged rest
      else execHooksList inp tuid ctx combined rest

/-- The skip condition of the matcher loop: a matcher with a non-null
matcher string is skipped exactly when a tool name is supplied and
differs from it. -/
def matcherSkips (toolName : Option String) (m : HookMatcher) : Bool :=
  match m.matcher, toolName with
  | some ms, some tn => ms != tn
  | _, _ => false

/-- client.py _execute_hooks outer loop over matchers. -/
def execHooksMatchers (inp : HookInput) (tuid : Option String)
    (toolName : Option String) (ctx : HookContext) (combined : HookOutput) :
    List HookMatcher → HookOutput × Bool
  | [] => (combined, false)
  | m :: rest =>
    if matcherSkips toolName m then
      execHooksMatchers inp tuid toolName ctx combined rest
    else
      match execHooksList inp tuid ctx combined m.hooks with
      | (c2, true) => (c2, true)
      | (c2, false) => execHooksMatchers inp tuid toolName ctx c2 rest

/-- client.py _execute_hooks: run every matching hook of an event and
fold the outputs left to right. -/
def executeHooks (hooksFor : HookEvent → List HookMatcher) (event : HookEvent)
    (inp : HookInput) (tuid : Option String) (toolName : Option String)
    (sid : String) : HookOutput :=
  (execHooksMatchers inp tuid toolName { session_id := sid, tool_use_id := tuid }
    {} (hooksFor event)).1

/-! ## Permission callback and tool definitions (types.py, client.py) -/

/-- types.py ToolPermissionContext. -/
structure ToolPermissionContext where
  session_id : Option String := none
deriving Repr

/-- types.py PermissionResult union. -/
inductive PermissionResult where
  | allow (updated_input : Option Json)
  | deny (message : String) (interrupt : Bool)
deriving Repr

/-- types.py CanUseTool callback (awaiting is uniform, so pure here). -/
def CanUseTool : Type := String → Json → ToolPermissionContext → PermissionResult

/-- A tool handler result: a string is kept verbatim, anything else is
json.dumps-encoded.  Except models the handler raising. -/
inductive HandlerValue where
  | str (s : String)
  | other (j : Json)
deriving Repr

/-- types.py ToolDefinition; the handler receives the (possibly
modified) input dict. -/
structure ToolDefinition where
  name : String
  description : String := ""
  input_schema : Json := Json.emptyObj
  handler : Option (Json → Except String HandlerValue) := none

/-- types.py AgentOptions (the fields the agent loop reads). -/
structure AgentOptions where
  max_turns : Option Nat := none
  tools : List ToolDefinition := []
  hooks : HookEvent → List HookMatcher := fun _ => []
  can_use_tool : Option CanUseTool := none
  session_id : Option String := none
  stream : Bool := true

/-! ## Tool execution (client.py _execute_tools / _execute_tools_with_events) -/

/-- Python truthiness of the permission_decision string pulled out of
the hook output ('not permission_decision'). -/
def permDecisionTruthy : Option String → Bool
  | some s => s != ""
  | none => false

/-- Outcome of processing one ToolUseBlock: the messages appended for
it, and whether a hook aborted the loop (return False). -/
inductive ToolStep where
  | abort (msgs : List Message)
  | cont (msgs : List Message)
deriving Repr

/-- client.py PreToolUse hook input for a block. -/
def preToolInput (sid : String) (tu : ToolUseBlock) : HookInput :=
  { session_id := sid, hook_event_name := "PreToolUse",
    tool_name := some tu.name, tool_input := some tu.input }

/-- client.py PostToolUse hook input for a block. -/
def postToolInput (sid : String) (tu : ToolUseBlock) (toolInput : Json)
    (content : String) : HookInput :=
  { session_id := sid, hook_event_name := "PostToolUse",
    tool_name := some tu.name, tool_input := some toolInput,
    tool_response := some content }

/-- The body of _execute_tools after the permission gates: find the
tool, pick the (hook-modified) input, run the handler, fire PostToolUse
hooks and build the ToolMessage. -/
def execToolCore (hooksFor : HookEvent → List HookMatcher)
    (tools : List ToolDefinition) (sid : String) (tu : ToolUseBlock)
    (pre : HookOutput) : ToolStep :=
  match (tools.find? (fun t => t.name == tu.name)).bind (·.handler) with
  | none =>
    ToolStep.cont [Message.tool
      ("Tool \x27" ++ tu.name ++ "\x27 not found or has no handler") tu.id]
  | some h =>
    let toolInput := match pre.modified_input with
      | some m => if m.pyTruthy then m else tu.input
      | none => tu.input
    match h toolInput with
    | Except.error e =>
      let _ := executeHooks hooksFor HookEvent.OnError
        { session_id := sid, hook_event_name := "OnError",
          error := some e, error_type := some "Exception" }
        (some tu.id) (some tu.name) sid
      ToolStep.cont [Message.tool ("Error executing tool: " ++ e) tu.id]
    | Except.ok v =>
      let content := match v with
        | HandlerValue.str s => s
        | HandlerValue.other j => j.render
      let post := executeHooks hooksFor HookEvent.PostToolUse
        (postToolInput sid tu toolInput content) (some tu.id) (some tu.name) sid
      if post.continue_ = some false then
        ToolStep.abort [Message.tool content tu.id]
      else
        let postSpecific := (post.hookSpecificOutput).getD {}
        let content2 := match postSpecific.additionalContext with
          | some ac =>
            if ac != "" then content ++ "\n\n[Hook note: " ++ ac ++ "]" else content
          | none => content
        ToolStep.cont [Message.tool content2 tu.id]

/-- One iteration of the _execute_tools loop: PreToolUse hooks, hook
permission decision, can_use_tool fallback, then the core.  The
updated_input carried by PermissionResult.allow is not read anywhere,
mirroring the source. -/
def execOneTool (hooksFor : HookEvent → List HookMatcher)
    (canUse : Option CanUseTool) (tools : List ToolDefinition) (sid : String)
    (tu : ToolUseBlock) : ToolStep :=
  let pre := executeHooks hooksFor HookEvent.PreToolUse (preToolInput sid tu)
    (some tu.id) (some tu.name) sid
  if pre.continue_ = some false then ToolStep.abort []
  else
    let hookSpecific := (pre.hookSpecificOutput).getD {}
    let pd := hookSpecific.permissionDecision
    if pd = some "deny" then
      ToolStep.cont [Message.tool
        ("Permission denied: " ++
          hookSpecific.permissionDecisionReason.getD "Denied by PreToolUse hook")
        tu.id]
    else
      match canUse with
      | some f =>
        if permDecisionTruthy pd then execToolCore hooksFor tools sid tu pre
        else
          match f tu.name tu.input { session_id := some sid } with
          | PermissionResult.deny m _ =>
            ToolStep.cont [Message.tool ("Permission denied: " ++ m) tu.id]
          | PermissionResult.allow _ => execToolCore hooksFor tools sid tu pre
      | none => execToolCore hooksFor tools sid tu pre

/-- client.py _execute_tools: process the blocks in order; the result is
the list of ToolMessages appended to history and the should_continue
flag. -/
def executeTools (hooksFor : HookEvent → List HookMatcher)
    (canUse : Option CanUseTool) (tools : List ToolDefinition) (sid : String) :
    List ToolUseBlock → List Message × Bool
  | [] => ([], true)
  | tu :: rest =>
    match execOneTool hooksFor canUse tools sid tu with
    | ToolStep.abort ms => (ms, false)
    | ToolStep.cont ms =>
      let r := executeTools hooksFor canUse tools sid rest
      (ms ++ r.1, r.2)

/-- The tool_execution_start event of _execute_tools_with_events. -/
def toolStartEvent (tu : ToolUseBlock) : StreamEvent :=
  { event_type := "tool_execution_start",
    delta := some (Json.obj
      [("type", Json.str "tool_execution_start"),
       ("tool_use_id", Json.str tu.id),
       ("tool_name", Json.str tu.name),
       ("tool_input", tu.input)]) }

/-- The tool_execution_complete event carrying an error; wall-clock
duration is abstracted to 0. -/
def toolErrorEvent (tu : ToolUseBlock) (err : String) : StreamEvent :=
  { event_type := "tool_execution_complete",
    delta := some (Json.obj
      [("type", Json.str "tool_execution_error"),
       ("tool_use_id", Json.str tu.id),
       ("tool_name", Json.str tu.name),
       ("error", Json.str err),
       ("duration_ms", Json.num 0)]) }

/-- The tool_execution_complete event carrying output truncated to 500
characters; wall-clock duration is abstracted to 0. -/
def toolCompleteEvent (tu : ToolUseBlock) (content : String) : StreamEvent :=
  { event_type := "tool_execution_complete",
    delta := some (Json.obj
      [("type", Json.str "tool_execution_complete"),
       ("tool_use_id", Json.str tu.id),
       ("tool_name", Json.str tu.name),
       ("output", Json.str (if content.length > 500 then content.take 500 else content)),
       ("duration_ms", Json.num 0)]) }

/-- Outcome of processing one ToolUseBlock in the streaming variant:
emitted events plus appended messages. -/
inductive ToolStepE where
  | abort (events : List StreamEvent) (msgs : List Message)
  | cont (events : List StreamEvent) (msgs : List Message)

/-- The post-permission body of _execute_tools_with_events. -/
def execToolCoreE (hooksFor : HookEvent → List HookMatcher)
    (tools : List ToolDefinition) (sid : String) (tu : ToolUseBlock)
    (pre : HookOutput) : ToolStepE :=
  match (tools.find? (fun t => t.name == tu.name)).bind (·.handler) with
  | none =>
    ToolStepE.cont [toolErrorEvent tu ("Tool \x27" ++ tu.name ++ "\x27 not found")]
      [Message.tool
        ("Tool \x27" ++ tu.name ++ "\x27 not found or has no handler") tu.id]
  | some h =>
    let toolInput := match pre.modified_input with
      | some m => if m.pyTruthy then m else tu.input
      | none => tu.input
    match h toolInput with
    | Except.error e =>
      let _ := executeHooks hooksFor HookEvent.OnError
        { session_id := sid, hook_event_name := "OnError",
          error := some e, error_type := some "Exception" }
        (some tu.id) (some tu.name) sid
      ToolStepE.cont [toolErrorEvent tu e]
        [Message.tool ("Error executing tool: " ++ e) tu.id]
    | Except.ok v =>
      let content := match v with
        | HandlerValue.str s => s
        | HandlerValue.other j => j.render
      let post := executeHooks hooksFor HookEvent.PostToolUse
        (postToolInput sid tu toolInput content) (some tu.id) (some tu.name) sid
      if post.continue_ = some false then
        ToolStepE.abort [toolCompleteEvent tu content] [Message.tool content tu.id]
      else
        let postSpecific := (post.hookSpecificOutput).getD {}
        let content2 := match postSpecific.additionalContext with
          | some ac =>
            if ac != "" then content ++ "\n\n[Hook note: " ++ ac ++ "]" else content
          | none => content
        ToolStepE.cont [toolCompleteEvent tu content2] [Message.tool content2 tu.id]

/-- Prepend the tool_execution_start event to a step outcome. -/
def ToolStepE.withStart (ev : StreamEvent) : ToolStepE → ToolStepE
  | ToolStepE.abort evs ms => ToolStepE.abort (ev :: evs) ms
  | ToolStepE.cont evs ms => ToolStepE.cont (ev :: evs) ms

/-- The permission gating of one _execute_tools_with_events iteration
(everything after the start event), with error events on every denied
path. -/
def execOneToolECore (hooksFor : HookEvent → List HookMatcher)
    (canUse : Option CanUseTool) (tools : List ToolDefinition) (sid : String)
    (tu : ToolUseBlock) : ToolStepE :=
  let pre := executeHooks hooksFor HookEvent.PreToolUse (preToolInput sid tu)
    (some tu.id) (some tu.name) sid
  if pre.continue_ = some false then
    ToolStepE.abort
      [toolErrorEvent tu (pre.stopReason.getD "Stopped by PreToolUse hook")]
      []
  else
    let hookSpecific := (pre.hookSpecificOutput).getD {}
    let pd := hookSpecific.permissionDecision
    if pd = some "deny" then
      let reason := hookSpecific.permissionDecisionReason.getD "Denied by PreToolUse hook"
      ToolStepE.cont [toolErrorEvent tu ("Permission denied: " ++ reason)]
        [Message.tool ("Permission denied: " ++ reason) tu.id]
    else
      match canUse with
      | some f =>
        if permDecisionTruthy pd then execToolCoreE hooksFor tools sid tu pre
        else
          match f tu.name tu.input { session_id := some sid } with
          | PermissionResult.deny m _ =>
            ToolStepE.cont [toolErrorEvent tu ("Permission denied: " ++ m)]
              [Message.tool ("Permission denied: " ++ m) tu.id]
          | PermissionResult.allow _ => execToolCoreE hooksFor tools sid tu pre
      | none => execToolCoreE hooksFor tools sid tu pre

/-- One iteration of _execute_tools_with_events: the start event is
emitted first, then the gated execution. -/
def execOneToolE (hooksFor : HookEvent → List HookMatcher)
    (canUse : Option CanUseTool) (tools : List ToolDefinition) (sid : String)
    (tu : ToolUseBlock) : ToolStepE :=
  ToolStepE.withStart (toolStartEvent tu)
    (execOneToolECore hooksFor canUse tools sid tu)

/-- client.py _execute_tools_with_events: events in emission order, the
appended ToolMessages, and the final should_continue flag consumed by
the streaming loop. -/
def executeToolsWithEvents (hooksFor : HookEvent → List HookMatcher)
    (canUse : Option CanUseTool) (tools : List ToolDefinition) (sid : String) :
    List ToolUseBlock → List StreamEvent × List Message × Bool
  | [] => ([], [], true)
  | tu :: rest =>
    match execOneToolE hooksFor canUse tools sid tu with
    | ToolStepE.abort evs ms => (evs, ms, false)
    | ToolStepE.cont evs ms =>
      let r := executeToolsWithEvents hooksFor canUse tools sid rest
      (evs ++ r.1, ms ++ r.2.1, r.2.2)

/-! ## Agent loop (client.py _stream_with_tools, _complete_with_tools, receive) -/

/-- Provider stream behaviour: the lazy sequence the provider yields at
the given call number for the given history.  Quantifying over this
captures arbitrary provider behaviour, stateful included. -/
def StreamProvider : Type := Nat → List Message → List AnyMessage

/-- Provider complete behaviour for the non-streaming loop. -/
def CompleteProvider : Type := Nat → List Message → AssistantMessage

/-- client.py: max_turns = self.options.max_turns or 10 (None and 0 are
both falsy). -/
def effMaxTurns : Option Nat → Nat
  | none => 10
  | some n => if n = 0 then 10 else n

/-- The response variable after draining the provider stream: the last
AssistantMessage seen. -/
def lastAssistant (msgs : List AnyMessage) : Option AssistantMessage :=
  msgs.foldl
    (fun acc m => match m with
      | AnyMessage.msg (Message.assistant a) => some a
      | _ => acc)
    none

/-- The ToolUseBlock subset of an assistant message content. -/
def toolUsesOf (content : List ContentBlock) : List ToolUseBlock :=
  content.filterMap fun b => match b with
    | ContentBlock.toolUse t => some t
    | _ => none

/-- ResultMessage(is_error=False, num_turns=turns, session_id=...). -/
def mkResult (sid : String) (t : Nat) : ResultMessage :=
  { is_error := false, num_turns := t, session_id := some sid }

/-- Result of running the while loop of either agent loop: everything
yielded inside the loop, the final turn counter, the final history and
the number of provider calls made. -/
structure LoopResult where
  out : List AnyMessage
  turns : Nat
  history : List Message
  calls : Nat

/-- The while loop of _stream_with_tools.  fuel is the number of loop
iterations the guard still allows (max_turns - turns); each iteration
makes exactly one provider call, forwards every provider message except
ResultMessages, and on tool use runs _execute_tools_with_events. -/
def streamGo (provider : StreamProvider) (hooksFor : HookEvent → List HookMatcher)
    (canUse : Option CanUseTool) (tools : List ToolDefinition) (sid : String) :
    Nat → Nat → List Message → LoopResult
  | turns, 0, history => { out := [], turns := turns, history := history, calls := 0 }
  | turns, fuel + 1, history =>
    let t := turns + 1
    let pmsgs := provider t history
    let forwarded := pmsgs.filter (fun m => !m.isResult)
    match lastAssistant pmsgs with
    | none => { out := forwarded, turns := t, history := history, calls := 1 }
    | some a =>
      let tus := toolUsesOf a.content
      if tus.isEmpty then
        { out := forwarded ++ [AnyMessage.result (mkResult sid t)],
          turns := t, history := history, calls := 1 }
      else
        let history1 := history ++ [Message.assistant a]
        let r := executeToolsWithEvents hooksFor canUse tools sid tus
        let history2 := history1 ++ r.2.1
        let evs := r.1.map AnyMessage.event
        if r.2.2 then
          let rest := streamGo provider hooksFor canUse tools sid t fuel history2
          { out := forwarded ++ evs ++ rest.out, turns := rest.turns,
            history := rest.history, calls := 1 + rest.calls }
        else
          { out := forwarded ++ evs ++ [AnyMessage.result (mkResult sid t)],
            turns := t, history := history2, calls := 1 }

/-- The full loop-run record of _stream_with_tools (loop plus the
trailing turns >= max_turns check). -/
def streamRun (provider : StreamProvider) (opts : AgentOptions) (sid : String)
    (history : List Message) : LoopResult :=
  let maxT := effMaxTurns opts.max_turns
  let r := streamGo provider opts.hooks opts.can_use_tool opts.tools sid 0 maxT history
  { r with out :=
      r.out ++ (if maxT ≤ r.turns then [AnyMessage.result (mkResult sid r.turns)] else []) }

/-- client.py _stream_with_tools: the complete yielded sequence of the
generator. -/
def streamWithTools (provider : StreamProvider) (opts : AgentOptions) (sid : String)
    (history : List Message) : List AnyMessage :=
  (streamRun provider opts sid history).out

/-- The while loop of _complete_with_tools. -/
def completeGo (pc : CompleteProvider) (hooksFor : HookEvent → List HookMatcher)
    (canUse : Option CanUseTool) (tools : List ToolDefinition) (sid : String) :
    Nat → Nat → List Message → LoopResult
  | turns, 0, history => { out := [], turns := turns, history := history, calls := 0 }
  | turns, fuel + 1, history =>
    let t := turns + 1
    let a := pc t history
    let yielded := [AnyMessage.msg (Message.assistant a)]
    let tus := toolUsesOf a.content
    if tus.isEmpty then
      { out := yielded ++ [AnyMessage.result (mkResult sid t)],
        turns := t, history := history, calls := 1 }
    else
      let history1 := history ++ [Message.assistant a]
      let r := executeTools hooksFor canUse tools sid tus
      let history2 := history1 ++ r.1
      if r.2 then
        let rest := completeGo pc hooksFor canUse tools sid t fuel history2
        { out := yielded ++ rest.out, turns := rest.turns,
          history := rest.history, calls := 1 + rest.calls }
      else
        { out := yielded ++ [AnyMessage.result (mkResult sid t)],
          turns := t, history := history2, calls := 1 }

/-- The full loop-run record of _complete_with_tools. -/
def completeRun (pc : CompleteProvider) (opts : AgentOptions) (sid : String)
    (history : List Message) : LoopResult :=
  let maxT := effMaxTurns opts.max_turns
  let r := completeGo pc opts.hooks opts.can_use_tool opts.tools sid 0 maxT history
  { r with out :=
      r.out ++ (if maxT ≤ r.turns then [AnyMessage.result (mkResult sid r.turns)] else []) }

/-- client.py _complete_with_tools: the complete yielded sequence of the
generator. -/
def completeWithTools (pc : CompleteProvider) (opts : AgentOptions) (sid : String)
    (history : List Message) : List AnyMessage :=
  (completeRun pc opts sid history).out

/-- client.py receive(): yield messages from the pending generator and
stop right after the first ResultMessage. -/
def receiveSeq : List AnyMessage → List AnyMessage
  | [] => []
  | m :: rest => if m.isResult then [m] else m :: receiveSeq rest

/-! ## OpenAI-dialect provider streaming (providers/openai.py stream) -/

/-- Python truthiness of an optional string. -/
def strOptTruthy : Option String → Bool
  | some s => s != ""
  | none => false

/-- A function fragment inside a streamed tool-call delta. -/
structure OAFunctionDelta where
  name : Option String := none
  arguments : Option String := none
deriving Repr

/-- choices[0].delta.tool_calls[i] of a chunk. -/
structure OAToolCallDelta where
  index : Nat
  id : Option String := none
  function : Option OAFunctionDelta := none
deriving Repr

/-- choices[0].delta of a chunk; a missing tool_calls array is the
empty list (both are falsy). -/
structure OAChunkDelta where
  content : Option String := none
  tool_calls : List OAToolCallDelta := []
deriving Repr

/-- One element of chunk.choices. -/
structure OAChoice where
  delta : OAChunkDelta
  finish_reason : Option String := none
deriving Repr

/-- A streamed chunk. -/
structure OAChunk where
  choices : List OAChoice
  model : String := ""
  usage : Option Usage := none
deriving Repr

/-- One accumulated entry of the index -> tool-call dict. -/
structure OAToolAcc where
  id : String
  name : String
  arguments : String
deriving Repr, DecidableEq

/-- The accumulator state of the OpenAI stream loop. -/
structure OAState where
  content_text : String
  tool_calls : List (Nat × OAToolAcc)
  model : String
  usage : Option Usage
  finish_reason : Option String
deriving Repr

/-- Dict lookup on the index -> tool-call accumulator. -/
def oaLookup : List (Nat × OAToolAcc) → Nat → Option OAToolAcc
  | [], _ => none
  | p :: t, idx => if p.1 = idx then some p.2 else oaLookup t idx

/-- Dict entry mutation on the index -> tool-call accumulator (keys are
unique, so updating every matching entry is the dict assignment). -/
def oaUpdate : List (Nat × OAToolAcc) → Nat → (OAToolAcc → OAToolAcc) →
    List (Nat × OAToolAcc)
  | [], _, _ => []
  | p :: t, k, f =>
    (if p.1 = k then (p.1, f p.2) else p) :: oaUpdate t k f

/-- Json value of an optional string (None becomes null). -/
def jsonOfOptStr : Option String → Json
  | some s => Json.str s
  | none => Json.null

/-- The tool_call_delta StreamEvent emitted for one tool-call delta. -/
def oaToolCallEvent (tc : OAToolCallDelta) : StreamEvent :=
  { event_type := "tool_call_delta", index := some tc.index,
    delta := some (Json.obj
      [("type", Json.str "tool_call"),
       ("id", jsonOfOptStr tc.id),
       ("name", match tc.function with
         | some f => jsonOfOptStr f.name
         | none => Json.null),
       ("arguments", match tc.function with
         | some f => jsonOfOptStr f.arguments
         | none => Json.null)]) }

/-- Create the dict entry on first sight of a tool-call index. -/
def oaTCInsert (m : List (Nat × OAToolAcc)) (tc : OAToolCallDelta) :
    List (Nat × OAToolAcc) :=
  if (oaLookup m tc.index).isNone then
    m ++ [(tc.index, { id := tc.id.getD "", name := "", arguments := "" })]
  else m

/-- Fold an incremental id fragment into the entry. -/
def oaTCSetId (m : List (Nat × OAToolAcc)) (tc : OAToolCallDelta) :
    List (Nat × OAToolAcc) :=
  if strOptTruthy tc.id then
    oaUpdate m tc.index (fun a => { a with id := tc.id.getD "" })
  else m

/-- Fold incremental function name and argument fragments into the
entry. -/
def oaTCSetFn (m : List (Nat × OAToolAcc)) (tc : OAToolCallDelta) :
    List (Nat × OAToolAcc) :=
  match tc.function with
  | some f =>
    let m3 := if strOptTruthy f.name then
        oaUpdate m tc.index (fun a => { a with name := f.name.getD "" })
      else m
    if strOptTruthy f.arguments then
      oaUpdate m3 tc.index (fun a => { a with arguments := a.arguments ++ f.arguments.getD "" })
    else m3
  | none => m

/-- The accumulator mutation for one tool-call delta: create the entry
on first sight of the index, then fold in id, name and arguments. -/
def oaProcessToolCall (m : List (Nat × OAToolAcc)) (tc : OAToolCallDelta) :
    List (Nat × OAToolAcc) :=
  oaTCSetFn (oaTCSetId (oaTCInsert m tc) tc) tc

/-- The inner for-loop over delta.tool_calls, emitting one event per
tool-call delta. -/
def oaProcessToolCalls (m : List (Nat × OAToolAcc)) :
    List OAToolCallDelta → List (Nat × OAToolAcc) × List StreamEvent
  | [] => (m, [])
  | tc :: rest =>
    let m1 := oaProcessToolCall m tc
    let r := oaProcessToolCalls m1 rest
    (r.1, oaToolCallEvent tc :: r.2)

/-- The content_block_delta StreamEvent the OpenAI stream emits for a
text fragment.  Its delta type tag is the literal "text". -/
def oaTextEvent (c : String) : StreamEvent :=
  { event_type := "content_block_delta",
    delta := some (Json.obj [("type", Json.str "text"), ("text", Json.str c)]) }

/-- The delta.content branch of the OpenAI chunk loop. -/
def oaContentStep (st : OAState) (content : Option String) : OAState × List StreamEvent :=
  match content with
  | some c =>
    if c != "" then
      ({ st with content_text := st.content_text ++ c }, [oaTextEvent c])
    else (st, [])
  | none => (st, [])

/-- The delta.tool_calls branch of the OpenAI chunk loop. -/
def oaToolCallsStep (st : OAState) (tcs : List OAToolCallDelta) : OAState × List StreamEvent :=
  if tcs.isEmpty then (st, [])
  else
    let r := oaProcessToolCalls st.tool_calls tcs
    ({ st with tool_calls := r.1 }, r.2)

/-- Processing of one chunk of the OpenAI stream loop. -/
def oaStep (st : OAState) (chunk : OAChunk) : OAState × List StreamEvent :=
  match chunk.choices with
  | [] =>
    match chunk.usage with
    | some u => ({ st with usage := some u }, [])
    | none => (st, [])
  | choice :: _ =>
    let st1 := if chunk.model != "" then { st with model := chunk.model } else st
    let textPart := oaContentStep st1 choice.delta.content
    let toolPart := oaToolCallsStep textPart.1 choice.delta.tool_calls
    let st4 := if strOptTruthy choice.finish_reason then
        { toolPart.1 with finish_reason := choice.finish_reason }
      else toolPart.1
    (st4, textPart.2 ++ toolPart.2)

/-- The initial accumulator of the OpenAI stream loop. -/
def oaInit : OAState :=
  { content_text := "", tool_calls := [], model := "", usage := none,
    finish_reason := none }

/-- The chunk loop of the OpenAI stream. -/
def oaFold : OAState → List OAChunk → OAState × List StreamEvent
  | st, [] => (st, [])
  | st, c :: rest =>
    let r := oaStep st c
    let r2 := oaFold r.1 rest
    (r2.1, r.2 ++ r2.2)

/-- openai.py _map_finish_reason. -/
def oaMapFinishReason : Option String → Option FinishReason
  | none => none
  | some fr =>
    if fr = "stop" then some FinishReason.stop
    else if fr = "length" then some FinishReason.length
    else if fr = "tool_calls" then some FinishReason.tool_use
    else if fr = "content_filter" then some FinishReason.content_filter
    else some FinishReason.stop

/-- json.loads(arguments) if arguments else empty dict, with parse
failure collapsing to the empty dict. -/
def oaParseArgs (pj : String → Option Json) (a : String) : Json :=
  if a != "" then (pj a).getD Json.emptyObj else Json.emptyObj

/-- The content blocks built after the OpenAI stream drains: an optional
TextBlock, then one ToolUseBlock per dict entry in ascending index
order. -/
def oaBlocks (pj : String → Option Json) (st : OAState) : List ContentBlock :=
  (if st.content_text != "" then [ContentBlock.text st.content_text] else []) ++
  (List.insertionSort (fun p q : Nat × OAToolAcc => p.1 ≤ q.1) st.tool_calls).map
    (fun p => ContentBlock.toolUse
      { id := p.2.id, name := p.2.name, input := oaParseArgs pj p.2.arguments })

/-- providers/openai.py stream: the full yielded sequence (events, then
the assembled AssistantMessage, then the provider ResultMessage). -/
def oaStream (pj : String → Option Json) (chunks : List OAChunk) : List AnyMessage :=
  let r := oaFold oaInit chunks
  (r.2.map AnyMessage.event) ++
  [AnyMessage.msg (Message.assistant
     { content := oaBlocks pj r.1, model := some r.1.model,
       finish_reason := oaMapFinishReason r.1.finish_reason }),
   AnyMessage.result
     { is_error := false, usage := r.1.usage,
       finish_reason := oaMapFinishReason r.1.finish_reason }]

/-- Just the StreamEvents of the OpenAI stream run. -/
def oaEvents (chunks : List OAChunk) : List StreamEvent :=
  (oaFold oaInit chunks).2

/-! ## Anthropic-dialect provider streaming (providers/claude.py stream) -/

/-- The typed payload of a vendor content_block_start event. -/
inductive ClStartBlock where
  | text
  | tool_use (id : String) (name : String)
  | thinking
deriving Repr

/-- The typed payload of a vendor content_block_delta event. -/
inductive ClDelta where
  | text_delta (text : String)
  | input_json_delta (fragment : String)
  | thinking_delta (thinking : String)
  | signature_delta (signature : String)
deriving Repr

/-- Vendor stream events consumed by the Claude provider state machine. -/
inductive ClEvent where
  | message_start (model : String) (usage : Option Usage)
  | content_block_start (index : Nat) (block : ClStartBlock)
  | content_block_delta (index : Nat) (delta : ClDelta)
  | content_block_stop (index : Nat)
  | message_delta (stop_reason : Option String) (usage : Option Usage)
  | message_stop
deriving Repr

/-- The current_tool_use accumulator dict. -/
structure ClToolAcc where
  id : String
  name : String
  input : String
deriving Repr

/-- The accumulator state of the Claude stream loop. -/
structure ClState where
  content_blocks : List ContentBlock
  current_text : String
  current_tool_use : Option ClToolAcc
  current_thinking : String
  current_sig : String
  model : String
  usage : Option Usage
  stop_reason : Option String

/-- The canonical content_block_delta event the Claude provider
re-emits for a vendor delta. -/
def clDeltaEvent (idx : Nat) : ClDelta → StreamEvent
  | ClDelta.text_delta t =>
    { event_type := "content_block_delta", index := some idx,
      delta := some (Json.obj [("type", Json.str "text_delta"), ("text", Json.str t)]) }
  | ClDelta.input_json_delta f =>
    { event_type := "content_block_delta", index := some idx,
      delta := some (Json.obj
        [("type", Json.str "input_json_delta"), ("partial_json", Json.str f)]) }
  | ClDelta.thinking_delta t =>
    { event_type := "content_block_delta", index := some idx,
      delta := some (Json.obj
        [("type", Json.str "thinking_delta"), ("thinking", Json.str t)]) }
  | ClDelta.signature_delta s =>
    { event_type := "content_block_delta", index := some idx,
      delta := some (Json.obj
        [("type", Json.str "signature_delta"), ("signature", Json.str s)]) }

/-- Processing of one vendor event by the Claude stream state machine. -/
def clStep (pj : String → Option Json) (st : ClState) :
    ClEvent → ClState × List StreamEvent
  | ClEvent.message_start m u =>
    ({ st with
        model := m,
        usage := (match u with | some x => some x | none => st.usage) }, [])
  | ClEvent.content_block_start idx b =>
    match b with
    | ClStartBlock.text =>
      ({ st with current_text := "" },
       [{ event_type := "content_block_start", index := some idx,
          delta := some (Json.obj [("type", Json.str "text")]) }])
    | ClStartBlock.tool_use id name =>
      ({ st with current_tool_use := some { id := id, name := name, input := "" } },
       [{ event_type := "content_block_start", index := some idx,
          delta := some (Json.obj
            [("type", Json.str "tool_use"), ("id", Json.str id),
             ("name", Json.str name)]) }])
    | ClStartBlock.thinking =>
      ({ st with current_thinking := "" },
       [{ event_type := "content_block_start", index := some idx,
          delta := some (Json.obj [("type", Json.str "thinking")]) }])
  | ClEvent.content_block_delta idx d =>
    match d with
    | ClDelta.text_delta t =>
      ({ st with current_text := st.current_text ++ t },
       [clDeltaEvent idx (ClDelta.text_delta t)])
    | ClDelta.input_json_delta f =>
      ({ st with current_tool_use := (match st.current_tool_use with
          | some ct => some { ct with input := ct.input ++ f }
          | none => none) },
       [clDeltaEvent idx (ClDelta.input_json_delta f)])
    | ClDelta.thinking_delta t =>
      ({ st with current_thinking := st.current_thinking ++ t },
       [clDeltaEvent idx (ClDelta.thinking_delta t)])
    | ClDelta.signature_delta s =>
      ({ st with current_sig := s },
       [clDeltaEvent idx (ClDelta.signature_delta s)])
  | ClEvent.content_block_stop idx =>
    let st2 :=
      if st.current_text != "" then
        { st with
            content_blocks := st.content_blocks ++ [ContentBlock.text st.current_text],
            current_text := "" }
      else match st.current_tool_use with
        | some ct =>
          { st with
              content_blocks := st.content_blocks ++
                [ContentBlock.toolUse
                  { id := ct.id, name := ct.name,
                    input := (pj ct.input).getD Json.emptyObj }],
              current_tool_use := none }
        | none =>
          if st.current_thinking != "" then
            { st with
                content_blocks := st.content_blocks ++
                  [ContentBlock.thinking st.current_thinking
                    (if st.current_sig != "" then some st.current_sig else none)],
                current_thinking := "", current_sig := "" }
          else st
    (st2, [{ event_type := "content_block_stop", index := some idx }])
  | ClEvent.message_delta sr u =>
    ({ st with
        stop_reason := sr,
        usage := (match u with | some x => some x | none => st.usage) }, [])
  | ClEvent.message_stop => (st, [])

/-- The initial accumulator of the Claude stream loop. -/
def clInit : ClState :=
  { content_blocks := [], current_text := "", current_tool_use := none,
    current_thinking := "", current_sig := "", model := "", usage := none,
    stop_reason := none }

/-- The event loop of the Claude stream. -/
def clFold (pj : String → Option Json) : ClState → List ClEvent → ClState × List StreamEvent
  | st, [] => (st, [])
  | st, e :: rest =>
    let r := clStep pj st e
    let r2 := clFold pj r.1 rest
    (r2.1, r.2 ++ r2.2)

/-- claude.py _map_stop_reason. -/
def clMapStopReason : Option String → Option FinishReason
  | none => none
  | some sr =>
    if sr = "end_turn" then some FinishReason.stop
    else if sr = "max_tokens" then some FinishReason.length
    else if sr = "tool_use" then some FinishReason.tool_use
    else if sr = "stop_sequence" then some FinishReason.stop
    else some FinishReason.stop

/-- providers/claude.py stream: the full yielded sequence (canonical
events, then the assembled AssistantMessage, then the provider
ResultMessage). -/
def clStream (pj : String → Option Json) (events : List ClEvent) : List AnyMessage :=
  let r := clFold pj clInit events
  (r.2.map AnyMessage.event) ++
  [AnyMessage.msg (Message.assistant
     { content := r.1.content_blocks, model := some r.1.model,
       finish_reason := clMapStopReason r.1.stop_reason }),
   AnyMessage.result
     { is_error := false, usage := r.1.usage,
       finish_reason := clMapStopReason r.1.stop_reason }]

/-! ## Well-formed provider turns and stream-level observations -/

/-- A well-formed vendor block: the unit between content_block_start
and content_block_stop, with deltas matching the block type. -/
inductive BlockScript where
  | text (deltas : List String)
  | tool (id : String) (name : String) (fragments : List String)
  | thinking (deltas : List String) (signature : Option String)
deriving Repr

/-- The vendor events of one well-formed block. -/
def blockEvents : BlockScript → List ClEvent
  | BlockScript.text ds =>
    ClEvent.content_block_start 0 ClStartBlock.text ::
      (ds.map (fun d => ClEvent.content_block_delta 0 (ClDelta.text_delta d)) ++
       [ClEvent.content_block_stop 0])
  | BlockScript.tool id name fs =>
    ClEvent.content_block_start 0 (ClStartBlock.tool_use id name) ::
      (fs.map (fun f => ClEvent.content_block_delta 0 (ClDelta.input_json_delta f)) ++
       [ClEvent.content_block_stop 0])
  | BlockScript.thinking ds sig =>
    ClEvent.content_block_start 0 ClStartBlock.thinking ::
      (ds.map (fun d => ClEvent.content_block_delta 0 (ClDelta.thinking_delta d)) ++
       (match sig with
        | some s => [ClEvent.content_block_delta 0 (ClDelta.signature_delta s)]
        | none => []) ++
       [ClEvent.content_block_stop 0])

/-- The vendor events of one well-formed streaming turn. -/
def scriptEvents (m : String) (sr : Option String) (scripts : List BlockScript) :
    List ClEvent :=
  ClEvent.message_start m none ::
    ((scripts.map blockEvents).flatten ++ [ClEvent.message_delta sr none, ClEvent.message_stop])

/-- Concatenation of a list of strings. -/
def strConcat : List String → String
  | [] => ""
  | x :: xs => x ++ strConcat xs

/-- The content blocks one well-formed block contributes, given the
thinking signature streamed so far. -/
def blockAdds (pj : String → Option Json) (sig : String) : BlockScript → List ContentBlock
  | BlockScript.text ds =>
    if strConcat ds != "" then [ContentBlock.text (strConcat ds)] else []
  | BlockScript.tool id name fs =>
    [ContentBlock.toolUse
      { id := id, name := name, input := (pj (strConcat fs)).getD Json.emptyObj }]
  | BlockScript.thinking ds s? =>
    let s1 := match s? with | some s => s | none => sig
    if strConcat ds != "" then
      [ContentBlock.thinking (strConcat ds) (if s1 != "" then some s1 else none)]
    else []

/-- The thinking signature left pending after one block: the machine
clears it only when it pushes a thinking block. -/
def blockNewSig (sig : String) : BlockScript → String
  | BlockScript.text _ => sig
  | BlockScript.tool _ _ _ => sig
  | BlockScript.thinking ds s? =>
    let s1 := match s? with | some s => s | none => sig
    if strConcat ds != "" then "" else s1

/-- The content blocks a well-formed turn is expected to assemble to;
the first argument threads the streamed thinking signature. -/
def assembleBlocks (pj : String → Option Json) : String → List BlockScript → List ContentBlock
  | _, [] => []
  | sig, b :: rest => blockAdds pj sig b ++ assembleBlocks pj (blockNewSig sig b) rest

/-- The payload of a content_block_delta event whose delta type tag is
the given one, reading the given string field; other events read as the
empty string. -/
def textDeltaStr (typeName : String) (field : String) (e : StreamEvent) : String :=
  if e.event_type == "content_block_delta" && e.deltaType == some typeName then
    match e.delta.bind (fun d => d.getField field) with
    | some (Json.str s) => s
    | _ => ""
  else ""

/-- Concatenation of all matching delta payloads across a turn. -/
def textDeltaConcat (typeName field : String) (evts : List StreamEvent) : String :=
  strConcat (evts.map (textDeltaStr typeName field))

/-- The argument fragment carried by a tool_call_delta event of the
given index (an absent or null fragment reads as the empty string). -/
def argPayloadStr (idx : Nat) (e : StreamEvent) : String :=
  if e.event_type == "tool_call_delta" && e.index == some idx then
    match e.delta.bind (fun d => d.getField "arguments") with
    | some (Json.str s) => s
    | _ => ""
  else ""

/-- Concatenation of all argument fragments streamed for one tool-call
index. -/
def argPayloadConcat (idx : Nat) (evts : List StreamEvent) : String :=
  strConcat (evts.map (argPayloadStr idx))

/-- The texts of the TextBlocks of a block list, concatenated. -/
def textBlocksConcat (content : List ContentBlock) : String :=
  strConcat (content.map fun b => match b with
    | ContentBlock.text t => t
    | _ => "")

/-- The AssistantMessages among a yielded sequence. -/
def assistantsOf (l : List AnyMessage) : List AssistantMessage :=
  l.filterMap fun m => match m with
    | AnyMessage.msg (Message.assistant a) => some a
    | _ => none

/-! ## Azure client construction (providers/openai.py AzureOpenAIProvider) -/

/-- Python "a or b" over optional strings with string truthiness. -/
def pyOrStr (a b : Option String) : Option String :=
  match a with
  | some s => if s != "" then some s else b
  | none => b

/-- The keyword arguments AsyncAzureOpenAI is constructed with. -/
structure AzureClientKwargs where
  api_key : String
  azure_endpoint : String
  api_version : String
  azure_ad_token : Option String
deriving Repr, DecidableEq

/-- AzureOpenAIProvider._get_client: resolve api_key and endpoint from
config falling back to the environment, take api_version from config
with a literal default, and fail with AuthenticationError when key or
endpoint is missing. -/
def azureGetClient (config : List (String × String)) (env : String → Option String) :
    Except String AzureClientKwargs :=
  let cfg : String → Option String := fun k => (config.find? (fun p => p.1 == k)).map (·.2)
  let api_key := pyOrStr (cfg "api_key") (env "AZURE_OPENAI_API_KEY")
  let endpoint := pyOrStr (cfg "base_url") (env "AZURE_OPENAI_ENDPOINT")
  let api_version := (cfg "api_version").getD "2024-02-15-preview"
  if strOptTruthy api_key then
    if strOptTruthy endpoint then
      Except.ok
        { api_key := api_key.getD "", azure_endpoint := endpoint.getD "",
          api_version := api_version,
          azure_ad_token :=
            match cfg "azure_ad_token" with
            | some t => if t != "" then some t else none
            | none => none }
    else
      Except.error "AZURE_OPENAI_ENDPOINT environment variable or base_url config required"
  else
    Except.error "AZURE_OPENAI_API_KEY environment variable or api_key config required"

/-! ## Session manager (examples/docker/api/session_manager.py) -/

/-- The per-session record fields cleanup interacts with. -/
structure AgentSessionRec where
  session_id : String
  container_info : Json
deriving Repr

/-- The session manager state: the sessions dict and whether a
container manager was set; the stop-invocation log of a call is
returned alongside the new state. -/
structure SMState where
  sessions : List (String × AgentSessionRec)
  has_container_manager : Bool

/-- Dict lookup on the sessions map. -/
def smLookup (sessions : List (String × AgentSessionRec)) (sid : String) :
    Option AgentSessionRec :=
  (sessions.find? (fun p => p.1 == sid)).map (·.2)

/-- session_manager.py cleanup_session: pop the session; when it existed
and a container manager is set, invoke stop_container on its handle
(errors are logged and swallowed, so the invocation is recorded either
way).  The returned list is the container stops this call performed. -/
def cleanupSession (st : SMState) (sid : String) : SMState × List Json :=
  match smLookup st.sessions sid with
  | some s =>
    ({ st with sessions := st.sessions.filter (fun q => q.1 != sid) },
     if st.has_container_manager then [s.container_info] else [])
  | none => (st, [])

/-! ## Derived observations used by the theorem statements -/

/-- The tool_call_id of a ToolMessage (other roles read as ""). -/
def msgToolCallId : Message → String
  | Message.tool _ cid => cid
  | _ => ""

/-- Whether a message is a ToolMessage. -/
def msgIsTool : Message → Bool
  | Message.tool _ _ => true
  | _ => false

/-- Whether a matcher applies to an event instance (the complement of
the skip condition in _execute_hooks). -/
def matcherApplies (toolName : Option String) (m : HookMatcher) : Bool :=
  !(matcherSkips toolName m)

/-- The successful, non-empty outputs of the applicable hooks of an
event, in execution order: the sequence _execute_hooks folds over. -/
def applicableHookOutputs (inp : HookInput) (tuid : Option String)
    (toolName : Option String) (ctx : HookContext) (ms : List HookMatcher) :
    List HookOutput :=
  (((ms.filter (matcherApplies toolName)).map
      (fun m => m.hooks.filterMap (fun h => h inp tuid ctx))).flatten).filter
    HookOutput.pyTruthy

/-- Just the StreamEvents of the Claude stream run. -/
def clEvents (pj : String → Option Json) (events : List ClEvent) : List StreamEvent :=
  (clFold pj clInit events).2

/-- The accumulated arguments string of an optional tool-call dict
entry (absent reads as ""). -/
def oaArgsStr (o : Option OAToolAcc) : String :=
  (o.map (·.arguments)).getD ""

/-- A Claude accumulator state that is between blocks: no text, tool or
thinking accumulation in flight. -/
def clCleanState (cbs : List ContentBlock) (csig mdl : String)
    (usg : Option Usage) (sr : Option String) : ClState :=
  { content_blocks := cbs, current_text := "", current_tool_use := none,
    current_thinking := "", current_sig := csig, model := mdl,
    usage := usg, stop_reason := sr }

/-- The pending thinking signature left after a list of well-formed
blocks. -/
def scriptsNewSig (sig : String) : List BlockScript → String
  | [] => sig
  | b :: rest => scriptsNewSig (blockNewSig sig b) rest

/-- The text payload of one well-formed block: the concatenation of its
text deltas (empty for tool and thinking blocks). -/
def scriptTextStr : BlockScript → String
  | BlockScript.text ds => strConcat ds
  | BlockScript.tool _ _ _ => ""
  | BlockScript.thinking _ _ => ""

/-- The canonical text_delta payload the Claude provider re-emits for
one vendor event (empty for every non-text-delta event). -/
def clEventTextStr : ClEvent → String
  | ClEvent.content_block_delta _ (ClDelta.text_delta t) => t
  | _ => ""

/-- A concrete OpenAI chunk sequence: a text fragment, then a tool call
with complete arguments. -/
def c7Chunks : List OAChunk :=
  [{ choices := [{ delta := { content := some "hi", tool_calls := [] } }], model := "gm" },
   { choices :=
      [{ delta :=
          { content := none,
            tool_calls :=
              [{ index := 0, id := some "t1",
                 function := some { name := some "f", arguments := some "\x7b\x7d" } }] },
         finish_reason := some "tool_calls" }] }]

/-- A concrete well-formed Claude turn: a text block, then a tool
block. -/
def c7Scripts : List BlockScript :=
  [BlockScript.text ["h", "i"], BlockScript.tool "t1" "f" ["\x7b\x7d"]]

/-- The AssistantMessage the OpenAI stream assembles from c7Chunks. -/
def c7OaMsg : AssistantMessage :=
  { content := [ContentBlock.text "hi",
      ContentBlock.toolUse { id := "t1", name := "f", input := Json.emptyObj }],
    model := some "gm", finish_reason := some FinishReason.tool_use }

/-- The AssistantMessage the Claude stream assembles from c7Scripts. -/
def c7ClMsg : AssistantMessage :=
  { content := [ContentBlock.text "hi",
      ContentBlock.toolUse { id := "t1", name := "f", input := Json.emptyObj }],
    model := some "mm", finish_reason := some FinishReason.stop }

/-- The accumulated tool-call dict entry of c7Chunks at index 0. -/
def c7Acc : OAToolAcc := { id := "t1", name := "f", arguments := "\x7b\x7d" }

/-! ## General lemmas -/

theorem strConcat_cons (a : String) (l : List String) :
    strConcat (a :: l) = a ++ strConcat l := rfl

theorem strConcat_append (l1 l2 : List String) :
    strConcat (l1 ++ l2) = strConcat l1 ++ strConcat l2 := by
  induction l1 with
  | nil => simp [strConcat, String.empty_append]
  | cons x xs ih =>
    show x ++ strConcat (xs ++ l2) = (x ++ strConcat xs) ++ strConcat l2
    rw [ih, String.append_assoc]

theorem strConcat_all_empty (l : List String) (h : ∀ x ∈ l, x = "") :
    strConcat l = "" := by
  induction l with
  | nil => rfl
  | cons x xs ih =>
    have hx : x = "" := h x (List.mem_cons_self x xs)
    rw [strConcat_cons, hx, ih (fun y hy => h y (List.mem_cons_of_mem x hy))]
    exact String.empty_append ""

theorem resultsOf_append (a b : List AnyMessage) :
    resultsOf (a ++ b) = resultsOf a ++ resultsOf b := by
  simp [resultsOf]

/-! ## C8: cleanup_session idempotence -/

theorem smLookup_filter_self (l : List (String × AgentSessionRec)) (sid : String) :
    smLookup (l.filter (fun q => q.1 != sid)) sid = none := by
  induction l with
  | nil => rfl
  | cons p t ih =>
    simp only [List.filter_cons]
    by_cases h : p.1 = sid
    · simp only [h, bne_self_eq_false]
      exact ih
    · have hb : (p.1 != sid) = true := by simp [h]
      simp only [hb, if_true]
      simp only [smLookup, List.find?_cons] at ih ⊢
      have hc : (p.1 == sid) = false := by simp [h]
      simp [hc, ih]

/-- C8: cleanup_session removes the session from the map and invokes
container stop on its handle exactly once; a second cleanup_session
with the same id changes nothing and performs no stop. -/
theorem claim_C8_cleanup_idempotent (st : SMState) (sid : String) (s : AgentSessionRec)
    (hmgr : st.has_container_manager = true)
    (hfind : smLookup st.sessions sid = some s) :
    smLookup (cleanupSession st sid).1.sessions sid = none ∧
    (cleanupSession st sid).2 = [s.container_info] ∧
    cleanupSession (cleanupSession st sid).1 sid = ((cleanupSession st sid).1, []) := by
  unfold cleanupSession
  rw [hfind]
  simp [hmgr, smLookup_filter_self]

/-- Witness for C8 at a concrete one-session manager state. -/
theorem claim_C8_witness :
    smLookup (cleanupSession
      { sessions := [("s1", { session_id := "s1", container_info := Json.str "c1" })],
        has_container_manager := true } "s1").1.sessions "s1" = none ∧
    (cleanupSession
      { sessions := [("s1", { session_id := "s1", container_info := Json.str "c1" })],
        has_container_manager := true } "s1").2 = [Json.str "c1"] ∧
    cleanupSession (cleanupSession
      { sessions := [("s1", { session_id := "s1", container_info := Json.str "c1" })],
        has_container_manager := true } "s1").1 "s1" =
      ((cleanupSession
        { sessions := [("s1", { session_id := "s1", container_info := Json.str "c1" })],
          has_container_manager := true } "s1").1, []) :=
  claim_C8_cleanup_idempotent _ "s1"
    { session_id := "s1", container_info := Json.str "c1" } rfl rfl

/-! ## C9: Azure api_version resolution -/

/-- C9 counterexample: with api_version absent from the config, the
built client ignores the AZURE_OPENAI_API_VERSION environment variable
and does not default to 2024-02-01. -/
theorem claim_C9_counterexample :
    (azureGetClient [("api_key", "k"), ("base_url", "e")]
        (fun k => if k == "AZURE_OPENAI_API_VERSION" then some "2023-10-01" else none)).toOption.map
      (fun c => c.api_version) ≠ some "2023-10-01" ∧
    (azureGetClient [("api_key", "k"), ("base_url", "e")] (fun _ => none)).toOption.map
      (fun c => c.api_version) ≠ some "2024-02-01" := by
  refine ⟨?_, ?_⟩ <;> decide

/-- C9 amended: the Azure client's api_version comes from the
configuration alone, with default "2024-02-15-preview"; the environment
is never consulted for it. -/
theorem claim_C9_amended (config : List (String × String)) (env env2 : String → Option String)
    (c c2 : AzureClientKwargs)
    (h : azureGetClient config env = Except.ok c)
    (h2 : azureGetClient config env2 = Except.ok c2) :
    c.api_version =
      ((config.find? (fun p => p.1 == "api_version")).map (·.2)).getD "2024-02-15-preview" ∧
    c.api_version = c2.api_version := by
  simp only [azureGetClient] at h h2
  split at h
  · split at h
    · cases h
      split at h2
      · split at h2
        · cases h2
          exact ⟨rfl, rfl⟩
        · exact absurd h2 (by simp)
      · exact absurd h2 (by simp)
    · exact absurd h (by simp)
  · exact absurd h (by simp)

/-- Witness for C9 at a concrete config and environments. -/
theorem claim_C9_witness :
    ("2024-02-15-preview" : String) =
      ((([("api_key", "k"), ("base_url", "e")] : List (String × String)).find?
          (fun p => p.1 == "api_version")).map (·.2)).getD "2024-02-15-preview" ∧
    ("2024-02-15-preview" : String) = "2024-02-15-preview" :=
  claim_C9_amended [("api_key", "k"), ("base_url", "e")]
    (fun _ => none) (fun _ => some "2023-10-01")
    { api_key := "k", azure_endpoint := "e", api_version := "2024-02-15-preview",
      azure_ad_token := none }
    { api_key := "k", azure_endpoint := "e", api_version := "2024-02-15-preview",
      azure_ad_token := none }
    rfl rfl

/-! ## C10: max_turns falsy values behave as 10 -/

/-- C10: with max_turns None or 0 both agent loops behave exactly as if
max_turns were 10, for every provider behaviour and history. -/
theorem claim_C10_zero_max_turns (provider : StreamProvider) (pc : CompleteProvider)
    (opts : AgentOptions) (sid : String) (history : List Message) :
    streamWithTools provider { opts with max_turns := some 0 } sid history =
      streamWithTools provider { opts with max_turns := some 10 } sid history ∧
    streamWithTools provider { opts with max_turns := none } sid history =
      streamWithTools provider { opts with max_turns := some 10 } sid history ∧
    completeWithTools pc { opts with max_turns := some 0 } sid history =
      completeWithTools pc { opts with max_turns := some 10 } sid history ∧
    completeWithTools pc { opts with max_turns := none } sid history =
      completeWithTools pc { opts with max_turns := some 10 } sid history :=
  ⟨rfl, rfl, rfl, rfl⟩

/-! ## C6: OpenAI-dialect stream event shapes -/

theorem oaToolCallEvent_shape (tc : OAToolCallDelta) :
    (oaToolCallEvent tc).event_type = "tool_call_delta" ∧
    (oaToolCallEvent tc).deltaType = some "tool_call" := ⟨rfl, rfl⟩

theorem oaTextEvent_shape (s : String) :
    (oaTextEvent s).event_type = "content_block_delta" ∧
    (oaTextEvent s).deltaType = some "text" := ⟨rfl, rfl⟩

theorem oaProcessToolCalls_event_shape (tcs : List OAToolCallDelta)
    (m : List (Nat × OAToolAcc)) (e : StreamEvent)
    (he : e ∈ (oaProcessToolCalls m tcs).2) :
    ∃ tc, e = oaToolCallEvent tc := by
  induction tcs generalizing m with
  | nil => simp [oaProcessToolCalls] at he
  | cons tc rest ih =>
    simp only [oaProcessToolCalls, List.mem_cons] at he
    rcases he with h | h
    · exact ⟨tc, h⟩
    · exact ih _ h

theorem oaContentStep_event_shape (st : OAState) (content : Option String)
    (e : StreamEvent) (he : e ∈ (oaContentStep st content).2) :
    ∃ s, e = oaTextEvent s := by
  rcases content with _ | c
  · simp [oaContentStep] at he
  · by_cases hc : (c != "") = true
    · simp [oaContentStep, hc] at he
      exact ⟨c, he⟩
    · simp [oaContentStep, hc] at he

theorem oaToolCallsStep_event_shape (st : OAState) (tcs : List OAToolCallDelta)
    (e : StreamEvent) (he : e ∈ (oaToolCallsStep st tcs).2) :
    ∃ tc, e = oaToolCallEvent tc := by
  unfold oaToolCallsStep at he
  by_cases hc : tcs.isEmpty = true
  · rw [if_pos hc] at he
    simp at he
  · rw [if_neg hc] at he
    exact oaProcessToolCalls_event_shape tcs st.tool_calls e he

theorem oaStep_event_shape (st : OAState) (c : OAChunk) (e : StreamEvent)
    (he : e ∈ (oaStep st c).2) :
    (e.event_type = "content_block_delta" ∧ e.deltaType = some "text") ∨
    (e.event_type = "tool_call_delta" ∧ e.deltaType = some "tool_call") := by
  unfold oaStep at he
  rcases c with ⟨choices, model, usage⟩
  rcases choices with _ | ⟨choice, rest⟩
  · rcases usage with _ | u <;> simp at he
  · simp only [List.mem_append] at he
    rcases he with h | h
    · obtain ⟨s, hs⟩ := oaContentStep_event_shape _ _ e h
      exact Or.inl (hs ▸ oaTextEvent_shape s)
    · obtain ⟨tc, htc⟩ := oaToolCallsStep_event_shape _ _ e h
      exact Or.inr (htc ▸ oaToolCallEvent_shape tc)

theorem oaFold_event_shape (chunks : List OAChunk) (st : OAState) (e : StreamEvent)
    (he : e ∈ (oaFold st chunks).2) :
    (e.event_type = "content_block_delta" ∧ e.deltaType = some "text") ∨
    (e.event_type = "tool_call_delta" ∧ e.deltaType = some "tool_call") := by
  induction chunks generalizing st with
  | nil => simp [oaFold] at he
  | cons c rest ih =>
    simp only [oaFold, List.mem_append] at he
    rcases he with h | h
    · exact oaStep_event_shape st c e h
    · exact ih _ h

/-- C6 counterexample: a turn with one text fragment and one tool-call
fragment makes the OpenAI provider emit an event of type
tool_call_delta (outside the canonical event_type set) and a
content_block_delta whose delta.type is "text" (outside the canonical
delta.type set). -/
theorem claim_C6_counterexample :
    ¬ (∀ e ∈ oaEvents
        [{ choices :=
            [{ delta :=
                { content := some "hi",
                  tool_calls :=
                    [{ index := 0, id := some "t1",
                       function := some { name := some "f", arguments := some "[1" } }] } }] }],
        (e.event_type = "content_block_start" ∨ e.event_type = "content_block_delta" ∨
          e.event_type = "content_block_stop") ∧
        (e.event_type = "content_block_delta" →
          (e.deltaType = some "text_delta" ∨ e.deltaType = some "input_json_delta" ∨
           e.deltaType = some "thinking_delta" ∨ e.deltaType = some "signature_delta"))) := by
  decide

/-- C6 amended: every StreamEvent the OpenAI-dialect stream emits is
either a content_block_delta whose delta.type is "text", or a
tool_call_delta whose delta.type is "tool_call"; the canonical
content_block_start/stop events and the canonical delta.type vocabulary
are not produced. -/
theorem claim_C6_amended (chunks : List OAChunk) :
    ∀ e ∈ oaEvents chunks,
      (e.event_type = "content_block_delta" ∧ e.deltaType = some "text") ∨
      (e.event_type = "tool_call_delta" ∧ e.deltaType = some "tool_call") :=
  fun e he => oaFold_event_shape chunks oaInit e he

/-- Witness for C6 at a concrete one-chunk stream. -/
theorem claim_C6_witness :
    ((oaTextEvent "hi").event_type = "content_block_delta" ∧
      (oaTextEvent "hi").deltaType = some "text") ∨
    ((oaTextEvent "hi").event_type = "tool_call_delta" ∧
      (oaTextEvent "hi").deltaType = some "tool_call") :=
  claim_C6_amended [{ choices := [{ delta := { content := some "hi" } }] }]
    (oaTextEvent "hi") (List.Mem.head _)

/-! ## C4: hook output merging -/

theorem applicableHookOutputs_cons (inp : HookInput) (tuid : Option String)
    (tn : Option String) (ctx : HookContext) (m : HookMatcher) (rest : List HookMatcher) :
    applicableHookOutputs inp tuid tn ctx (m :: rest) =
      (if matcherApplies tn m then
        (m.hooks.filterMap (fun h => h inp tuid ctx)).filter HookOutput.pyTruthy
       else []) ++ applicableHookOutputs inp tuid tn ctx rest := by
  simp only [applicableHookOutputs, List.filter_cons]
  by_cases hm : matcherApplies tn m = true
  · simp [hm, List.filter_append]
  · simp [hm]

theorem execHooksList_no_stop (inp : HookInput) (tuid : Option String)
    (ctx : HookContext) (hooks : List Hook) (c : HookOutput)
    (h : ∀ o ∈ (hooks.filterMap (fun hk => hk inp tuid ctx)).filter HookOutput.pyTruthy,
      o.continue_ ≠ some false) :
    execHooksList inp tuid ctx c hooks =
      (((hooks.filterMap (fun hk => hk inp tuid ctx)).filter HookOutput.pyTruthy).foldl
        mergeHookOutput c, false) := by
  induction hooks generalizing c with
  | nil => rfl
  | cons hk rest ih =>
    rcases hh : hk inp tuid ctx with _ | o
    · simp only [execHooksList, hh, List.filterMap_cons] at h ⊢
      exact ih c h
    · by_cases ht : o.pyTruthy = true
      · have hmem : o ∈ (((hk :: rest).filterMap (fun hk => hk inp tuid ctx)).filter
            HookOutput.pyTruthy) := by
          simp only [List.filterMap_cons, hh]
          exact List.mem_filter.mpr ⟨List.mem_cons_self o _, ht⟩
        have hne : o.continue_ ≠ some false := h o hmem
        simp only [execHooksList, hh, ht, if_true, if_neg hne, List.filterMap_cons,
          List.filter_cons, List.foldl_cons] at h ⊢
        exact ih (mergeHookOutput c o) (fun x hx => h x (List.mem_cons_of_mem o hx))
      · simp only [execHooksList, hh, ht, if_false, List.filterMap_cons,
          List.filter_cons] at h ⊢
        simp only [Bool.false_eq_true, if_false] at h ⊢
        exact ih c h

theorem execHooksMatchers_no_stop (inp : HookInput) (tuid : Option String)
    (tn : Option String) (ctx : HookContext) (ms : List HookMatcher) (c : HookOutput)
    (h : ∀ o ∈ applicableHookOutputs inp tuid tn ctx ms, o.continue_ ≠ some false) :
    execHooksMatchers inp tuid tn ctx c ms =
      ((applicableHookOutputs inp tuid tn ctx ms).foldl mergeHookOutput c, false) := by
  induction ms generalizing c with
  | nil => rfl
  | cons m rest ih =>
    rw [applicableHookOutputs_cons] at h ⊢
    by_cases hm : matcherApplies tn m = true
    · have happ : ∀ o ∈ (m.hooks.filterMap (fun hk => hk inp tuid ctx)).filter
          HookOutput.pyTruthy, o.continue_ ≠ some false := by
        intro o ho
        exact h o (by rw [if_pos hm]; exact List.mem_append_left _ ho)
      have hrest : ∀ o ∈ applicableHookOutputs inp tuid tn ctx rest,
          o.continue_ ≠ some false := by
        intro o ho
        exact h o (List.mem_append_right _ ho)
      have hskip : matcherSkips tn m = false := by
        simpa [matcherApplies] using hm
      simp only [execHooksMatchers, hskip, Bool.false_eq_true, if_false,
        execHooksList_no_stop inp tuid ctx m.hooks c happ]
      rw [if_pos hm, List.foldl_append]
      exact ih _ hrest
    · have hskip : matcherSkips tn m = true := by
        cases hsk : matcherSkips tn m with
        | false => exact absurd (by simp [matcherApplies, hsk]) hm
        | true => rfl
      rw [if_neg hm] at h ⊢
      simp only [execHooksMatchers, hskip, if_true]
      simp only [List.nil_append] at h ⊢
      exact ih c h

theorem foldl_merge_none_tail (l : List HookOutput) (c : HookOutput)
    (h : ∀ x ∈ l, x.hookSpecificOutput = none) :
    (l.foldl mergeHookOutput c).hookSpecificOutput = c.hookSpecificOutput := by
  induction l generalizing c with
  | nil => rfl
  | cons x rest ih =>
    have hx : x.hookSpecificOutput = none := h x (List.mem_cons_self x rest)
    rw [List.foldl_cons, ih (mergeHookOutput c x)
      (fun y hy => h y (List.mem_cons_of_mem x hy))]
    simp [mergeHookOutput, hx]

theorem foldl_merge_last_specific (l1 l2 : List HookOutput) (o c : HookOutput)
    (hs : o.hookSpecificOutput.isSome)
    (h2 : ∀ x ∈ l2, x.hookSpecificOutput = none) :
    ((l1 ++ o :: l2).foldl mergeHookOutput c).hookSpecificOutput =
      o.hookSpecificOutput := by
  rw [List.foldl_append, List.foldl_cons, foldl_merge_none_tail l2 _ h2]
  rcases ho : o.hookSpecificOutput with _ | s
  · rw [ho] at hs; cases hs
  · simp [mergeHookOutput, ho]

/-- C4 counterexample: with two hooks on one event, the first returning
permissionDecision deny and the second allow, the merged event output
carries allow: the later hookSpecificOutput replaces the deny wholesale. -/
theorem claim_C4_counterexample :
    ((executeHooks
        (fun _ => [{ matcher := none,
                     hooks := [fun _ _ _ => some
                                 { hookSpecificOutput := some { permissionDecision := some "deny" } },
                               fun _ _ _ => some
                                 { hookSpecificOutput := some { permissionDecision := some "allow" } }] }])
        HookEvent.PreToolUse { session_id := "s", hook_event_name := "PreToolUse" }
        (some "t1") (some "bash") "s").hookSpecificOutput.getD {}).permissionDecision ≠
      some "deny" := by decide

/-- C4 amended: absent any continue_=false abort, the merged hook
output of an event is the deterministic left-to-right dict-update fold
over the applicable hooks' outputs, and the final hookSpecificOutput
(hence permissionDecision) is the one of the LAST hook output that set
it — a later allow replaces an earlier deny. -/
theorem claim_C4_amended (hooksFor : HookEvent → List HookMatcher) (event : HookEvent)
    (inp : HookInput) (tuid : Option String) (toolName : Option String) (sid : String)
    (outs l1 l2 : List HookOutput) (o : HookOutput)
    (houts : outs = applicableHookOutputs inp tuid toolName
      { session_id := sid, tool_use_id := tuid } (hooksFor event))
    (hnostop : ∀ x ∈ outs, x.continue_ ≠ some false)
    (hsplit : outs = l1 ++ o :: l2)
    (hs : o.hookSpecificOutput.isSome)
    (h2 : ∀ x ∈ l2, x.hookSpecificOutput = none) :
    executeHooks hooksFor event inp tuid toolName sid = outs.foldl mergeHookOutput {} ∧
    (executeHooks hooksFor event inp tuid toolName sid).hookSpecificOutput =
      o.hookSpecificOutput := by
  have key : executeHooks hooksFor event inp tuid toolName sid =
      outs.foldl mergeHookOutput {} := by
    rw [houts, executeHooks, execHooksMatchers_no_stop _ _ _ _ _ _ (houts ▸ hnostop)]
  refine ⟨key, ?_⟩
  rw [key, hsplit]
  exact foldl_merge_last_specific l1 l2 o {} hs h2

/-- Witness for C4 at the concrete deny-then-allow hook pair. -/
theorem claim_C4_witness :
    executeHooks
        (fun _ => [{ matcher := none,
                     hooks := [fun _ _ _ => some
                                 { hookSpecificOutput := some { permissionDecision := some "deny" } },
                               fun _ _ _ => some
                                 { hookSpecificOutput := some { permissionDecision := some "allow" } }] }])
        HookEvent.PreToolUse { session_id := "s", hook_event_name := "PreToolUse" }
        (some "t1") (some "bash") "s" =
      ([{ hookSpecificOutput := some { permissionDecision := some "deny" } },
         { hookSpecificOutput := some { permissionDecision := some "allow" } }] :
        List HookOutput).foldl mergeHookOutput {} ∧
    (executeHooks
        (fun _ => [{ matcher := none,
                     hooks := [fun _ _ _ => some
                                 { hookSpecificOutput := some { permissionDecision := some "deny" } },
                               fun _ _ _ => some
                                 { hookSpecificOutput := some { permissionDecision := some "allow" } }] }])
        HookEvent.PreToolUse { session_id := "s", hook_event_name := "PreToolUse" }
        (some "t1") (some "bash") "s").hookSpecificOutput =
      some { permissionDecision := some "allow" } :=
  claim_C4_amended _ HookEvent.PreToolUse
    { session_id := "s", hook_event_name := "PreToolUse" } (some "t1") (some "bash") "s"
    [{ hookSpecificOutput := some { permissionDecision := some "deny" } },
     { hookSpecificOutput := some { permissionDecision := some "allow" } }]
    [{ hookSpecificOutput := some { permissionDecision := some "deny" } }] []
    { hookSpecificOutput := some { permissionDecision := some "allow" } }
    rfl (by decide) rfl rfl (by decide)

/-! ## C2: tool-result coverage of the history -/

theorem execOneTool_shape (hooksFor : HookEvent → List HookMatcher)
    (canUse : Option CanUseTool) (tools : List ToolDefinition) (sid : String)
    (tu : ToolUseBlock) :
    (∃ ms, execOneTool hooksFor canUse tools sid tu = ToolStep.abort ms) ∨
    (∃ c, execOneTool hooksFor canUse tools sid tu =
      ToolStep.cont [Message.tool c tu.id]) := by
  unfold execOneTool execToolCore
  repeat' first
    | (split)
    | (dsimp only [])
  all_goals first
    | exact Or.inl ⟨_, rfl⟩
    | exact Or.inr ⟨_, rfl⟩

theorem execOneToolECore_shape (hooksFor : HookEvent → List HookMatcher)
    (canUse : Option CanUseTool) (tools : List ToolDefinition) (sid : String)
    (tu : ToolUseBlock) :
    (∃ evs ms, execOneToolECore hooksFor canUse tools sid tu =
      ToolStepE.abort evs ms) ∨
    (∃ evs c, execOneToolECore hooksFor canUse tools sid tu =
      ToolStepE.cont evs [Message.tool c tu.id]) := by
  unfold execOneToolECore execToolCoreE
  repeat' first
    | (split)
    | (dsimp only [])
  all_goals first
    | exact Or.inl ⟨_, _, rfl⟩
    | exact Or.inr ⟨_, _, rfl⟩

theorem execOneToolE_shape (hooksFor : HookEvent → List HookMatcher)
    (canUse : Option CanUseTool) (tools : List ToolDefinition) (sid : String)
    (tu : ToolUseBlock) :
    (∃ evs ms, execOneToolE hooksFor canUse tools sid tu = ToolStepE.abort evs ms) ∨
    (∃ evs c, execOneToolE hooksFor canUse tools sid tu =
      ToolStepE.cont evs [Message.tool c tu.id]) := by
  rcases execOneToolECore_shape hooksFor canUse tools sid tu with ⟨evs, ms, hc⟩ | ⟨evs, c, hc⟩
  · exact Or.inl ⟨_, _, by rw [execOneToolE, hc]; rfl⟩
  · exact Or.inr ⟨_, _, by rw [execOneToolE, hc]; rfl⟩

theorem executeTools_cont_ids (hooksFor : HookEvent → List HookMatcher)
    (canUse : Option CanUseTool) (tools : List ToolDefinition) (sid : String)
    (tus : List ToolUseBlock)
    (h : (executeTools hooksFor canUse tools sid tus).2 = true) :
    (executeTools hooksFor canUse tools sid tus).1.map msgToolCallId =
      tus.map (fun tu => tu.id) ∧
    ∀ m ∈ (executeTools hooksFor canUse tools sid tus).1, msgIsTool m = true := by
  induction tus with
  | nil => exact ⟨rfl, by simp [executeTools]⟩
  | cons tu rest ih =>
    rcases execOneTool_shape hooksFor canUse tools sid tu with ⟨ms, he⟩ | ⟨c, he⟩
    · simp only [executeTools, he] at h
      exact absurd h (by decide)
    · simp only [executeTools, he] at h ⊢
      obtain ⟨ih1, ih2⟩ := ih h
      refine ⟨?_, ?_⟩
      · simp [msgToolCallId, ih1]
      · intro m hm
        rcases List.mem_append.mp hm with h1 | h1
        · rcases List.mem_singleton.mp h1 with rfl
          rfl
        · exact ih2 m h1

theorem executeToolsWithEvents_cont_ids (hooksFor : HookEvent → List HookMatcher)
    (canUse : Option CanUseTool) (tools : List ToolDefinition) (sid : String)
    (tus : List ToolUseBlock)
    (h : (executeToolsWithEvents hooksFor canUse tools sid tus).2.2 = true) :
    (executeToolsWithEvents hooksFor canUse tools sid tus).2.1.map msgToolCallId =
      tus.map (fun tu => tu.id) ∧
    ∀ m ∈ (executeToolsWithEvents hooksFor canUse tools sid tus).2.1,
      msgIsTool m = true := by
  induction tus with
  | nil => exact ⟨rfl, by simp [executeToolsWithEvents]⟩
  | cons tu rest ih =>
    rcases execOneToolE_shape hooksFor canUse tools sid tu with ⟨evs, ms, he⟩ | ⟨evs, c, he⟩
    · simp only [executeToolsWithEvents, he] at h
      exact absurd h (by decide)
    · simp only [executeToolsWithEvents, he] at h ⊢
      obtain ⟨ih1, ih2⟩ := ih h
      refine ⟨?_, ?_⟩
      · simp [msgToolCallId, ih1]
      · intro m hm
        rcases List.mem_append.mp hm with h1 | h1
        · rcases List.mem_singleton.mp h1 with rfl
          rfl
        · exact ih2 m h1

/-- C2 counterexample: a PreToolUse hook returning continue_=false makes
_execute_tools append no ToolMessage for the aborted ToolUseBlock: the
claim's coverage fails on that path. -/
theorem claim_C2_counterexample :
    ¬ ((executeTools
        (fun _ => [{ matcher := none,
                     hooks := [fun _ _ _ => some { continue_ := some false }] }])
        none [] "s"
        [{ id := "t1", name := "bash", input := Json.emptyObj }]).1.countP
          (fun m => msgToolCallId m == "t1") = 1) := by
  decide

/-- C2 amended: provided no hook aborts execution with continue_=false
(should_continue stays true), every ToolUseBlock receives exactly one
ToolMessage carrying its id, in block order, on both the plain and the
event-emitting executor; a PreToolUse continue_=false abort instead
appends no ToolMessage for the aborted block and skips the rest. -/
theorem claim_C2_amended (hooksFor : HookEvent → List HookMatcher)
    (canUse : Option CanUseTool) (tools : List ToolDefinition) (sid : String)
    (tus : List ToolUseBlock)
    (h1 : (executeTools hooksFor canUse tools sid tus).2 = true)
    (h2 : (executeToolsWithEvents hooksFor canUse tools sid tus).2.2 = true)
    (hnd : (tus.map (fun tu => tu.id)).Nodup) :
    (executeTools hooksFor canUse tools sid tus).1.map msgToolCallId =
      tus.map (fun tu => tu.id) ∧
    (∀ m ∈ (executeTools hooksFor canUse tools sid tus).1, msgIsTool m = true) ∧
    (∀ tu ∈ tus, (executeTools hooksFor canUse tools sid tus).1.countP
      (fun m => msgToolCallId m == tu.id) = 1) ∧
    (executeToolsWithEvents hooksFor canUse tools sid tus).2.1.map msgToolCallId =
      tus.map (fun tu => tu.id) ∧
    (∀ m ∈ (executeToolsWithEvents hooksFor canUse tools sid tus).2.1,
      msgIsTool m = true) := by
  obtain ⟨ha, hb⟩ := executeTools_cont_ids hooksFor canUse tools sid tus h1
  obtain ⟨hc, hd⟩ := executeToolsWithEvents_cont_ids hooksFor canUse tools sid tus h2
  refine ⟨ha, hb, ?_, hc, hd⟩
  intro tu htu
  have hcount : (executeTools hooksFor canUse tools sid tus).1.countP
      (fun m => msgToolCallId m == tu.id) =
      ((executeTools hooksFor canUse tools sid tus).1.map msgToolCallId).countP
        (fun s => s == tu.id) := by
    rw [List.countP_map]
    rfl
  rw [hcount, ha]
  have : (tus.map (fun tu => tu.id)).count tu.id = 1 :=
    List.count_eq_one_of_mem hnd (List.mem_map_of_mem _ htu)
  simpa [List.count] using this

/-- Witness for C2 at a concrete single-tool configuration. -/
theorem claim_C2_witness :
    (executeTools (fun _ => []) none
      [{ name := "add", description := "", input_schema := Json.emptyObj,
         handler := some (fun _ => Except.ok (HandlerValue.str "5")) }] "s"
      [{ id := "t1", name := "add", input := Json.emptyObj }]).1.map msgToolCallId =
      ([{ id := "t1", name := "add", input := Json.emptyObj }] :
        List ToolUseBlock).map (fun tu => tu.id) ∧
    (∀ m ∈ (executeTools (fun _ => []) none
      [{ name := "add", description := "", input_schema := Json.emptyObj,
         handler := some (fun _ => Except.ok (HandlerValue.str "5")) }] "s"
      [{ id := "t1", name := "add", input := Json.emptyObj }]).1, msgIsTool m = true) ∧
    (∀ tu ∈ ([{ id := "t1", name := "add", input := Json.emptyObj }] :
        List ToolUseBlock),
      (executeTools (fun _ => []) none
        [{ name := "add", description := "", input_schema := Json.emptyObj,
           handler := some (fun _ => Except.ok (HandlerValue.str "5")) }] "s"
        [{ id := "t1", name := "add", input := Json.emptyObj }]).1.countP
          (fun m => msgToolCallId m == tu.id) = 1) ∧
    (executeToolsWithEvents (fun _ => []) none
      [{ name := "add", description := "", input_schema := Json.emptyObj,
         handler := some (fun _ => Except.ok (HandlerValue.str "5")) }] "s"
      [{ id := "t1", name := "add", input := Json.emptyObj }]).2.1.map msgToolCallId =
      ([{ id := "t1", name := "add", input := Json.emptyObj }] :
        List ToolUseBlock).map (fun tu => tu.id) ∧
    (∀ m ∈ (executeToolsWithEvents (fun _ => []) none
      [{ name := "add", description := "", input_schema := Json.emptyObj,
         handler := some (fun _ => Except.ok (HandlerValue.str "5")) }] "s"
      [{ id := "t1", name := "add", input := Json.emptyObj }]).2.1,
      msgIsTool m = true) :=
  claim_C2_amended (fun _ => []) none
    [{ name := "add", description := "", input_schema := Json.emptyObj,
       handler := some (fun _ => Except.ok (HandlerValue.str "5")) }] "s"
    [{ id := "t1", name := "add", input := Json.emptyObj }]
    rfl rfl (by decide)

/-! ## C5: can_use_tool updated_input is ignored -/

/-- C5: with no hook permission decision and can_use_tool returning
Allow with updated_input redirecting the path, the handler (which here
echoes the path it received) still runs on the model-supplied input:
the appended ToolMessage carries the original path, not the redirected
one.  The Deny half behaves as specified. -/
theorem claim_C5_updated_input_ignored :
    (executeTools (fun _ => [])
      (some (fun _ _ _ => PermissionResult.allow
        (some (Json.obj [("path", Json.str "/safe/x.txt")]))))
      [{ name := "write_file", description := "", input_schema := Json.emptyObj,
         handler := some (fun j => Except.ok (HandlerValue.str
           (match j.getField "path" with
            | some (Json.str s) => s
            | _ => "?"))) }]
      "s" [{ id := "t1", name := "write_file",
             input := Json.obj [("path", Json.str "/etc/passwd")] }]).1 =
      [Message.tool "/etc/passwd" "t1"] ∧
    (executeTools (fun _ => [])
      (some (fun _ _ _ => PermissionResult.deny "no" false))
      [{ name := "write_file", description := "", input_schema := Json.emptyObj,
         handler := some (fun j => Except.ok (HandlerValue.str
           (match j.getField "path" with
            | some (Json.str s) => s
            | _ => "?"))) }]
      "s" [{ id := "t1", name := "write_file",
             input := Json.obj [("path", Json.str "/etc/passwd")] }]).1 =
      [Message.tool "Permission denied: no" "t1"] :=
  ⟨rfl, rfl⟩

/-! ## C1/C3: agent-loop result discipline and turn bound -/

theorem resultsOf_filter_not (l : List AnyMessage) :
    resultsOf (l.filter (fun m => !m.isResult)) = [] := by
  induction l with
  | nil => rfl
  | cons m rest ih =>
    rcases m with m' | r | e <;>
      simp [resultsOf, AnyMessage.isResult, List.filter_cons] at ih ⊢ <;>
      simpa [resultsOf] using ih

theorem resultsOf_map_event (evs : List StreamEvent) :
    resultsOf (evs.map AnyMessage.event) = [] := by
  induction evs with
  | nil => rfl
  | cons e rest ih => simp [resultsOf] at ih ⊢

theorem resultsOf_cons_not (m : AnyMessage) (rest : List AnyMessage)
    (hm : m.isResult = false) : resultsOf (m :: rest) = resultsOf rest := by
  rcases m with m' | r | e
  · simp [resultsOf]
  · simp [AnyMessage.isResult] at hm
  · simp [resultsOf]

theorem receiveSeq_terminal (l : List AnyMessage) (h : resultsOf l ≠ []) :
    ∃ pre r, receiveSeq l = pre ++ [AnyMessage.result r] ∧
      ∀ m ∈ pre, m.isResult = false := by
  induction l with
  | nil => exact absurd rfl h
  | cons m rest ih =>
    rcases hm : m.isResult with _ | _
    · have hrest : resultsOf rest ≠ [] := by
        rwa [resultsOf_cons_not m rest hm] at h
      obtain ⟨pre, r, heq, hpre⟩ := ih hrest
      refine ⟨m :: pre, r, ?_, ?_⟩
      · simp [receiveSeq, hm, heq]
      · intro x hx
        rcases List.mem_cons.mp hx with rfl | hx2
        · exact hm
        · exact hpre x hx2
    · rcases m with m' | r | e
      · simp [AnyMessage.isResult] at hm
      · exact ⟨[], r, by simp [receiveSeq, AnyMessage.isResult], by simp⟩
      · simp [AnyMessage.isResult] at hm

theorem streamGo_invariant (provider : StreamProvider)
    (hooksFor : HookEvent → List HookMatcher) (canUse : Option CanUseTool)
    (tools : List ToolDefinition) (sid : String) :
    ∀ (fuel turns : Nat) (history : List Message),
      (streamGo provider hooksFor canUse tools sid turns fuel history).calls ≤ fuel ∧
      (streamGo provider hooksFor canUse tools sid turns fuel history).turns =
        turns + (streamGo provider hooksFor canUse tools sid turns fuel history).calls ∧
      ∀ res ∈ resultsOf (streamGo provider hooksFor canUse tools sid turns fuel history).out,
        res.is_error = false ∧
        res.num_turns = (streamGo provider hooksFor canUse tools sid turns fuel history).turns ∧
        res.session_id = some sid := by
  intro fuel
  induction fuel with
  | zero =>
    intro turns history
    refine ⟨Nat.le_refl 0, by simp [streamGo], ?_⟩
    intro res hres
    simp [streamGo, resultsOf] at hres
  | succ fuel ih =>
    intro turns history
    rcases hla : lastAssistant (provider (turns + 1) history) with _ | a
    · simp only [streamGo, hla]
      refine ⟨by omega, by trivial, ?_⟩
      intro res hres
      rw [resultsOf_filter_not] at hres
      exact absurd hres (List.not_mem_nil res)
    · by_cases htu : (toolUsesOf a.content).isEmpty = true
      · simp only [streamGo, hla, htu, if_true]
        refine ⟨by omega, by trivial, ?_⟩
        intro res hres
        rw [resultsOf_append, resultsOf_filter_not, List.nil_append] at hres
        simp [resultsOf] at hres
        subst hres
        simp [mkResult]
      · rcases hflag : (executeToolsWithEvents hooksFor canUse tools sid
            (toolUsesOf a.content)).2.2 with _ | _
        · simp only [streamGo, hla, htu, Bool.false_eq_true, if_false, hflag]
          refine ⟨by omega, by trivial, ?_⟩
          intro res hres
          rw [resultsOf_append, resultsOf_append, resultsOf_filter_not,
            resultsOf_map_event, List.nil_append, List.nil_append] at hres
          simp [resultsOf] at hres
          subst hres
          simp [mkResult]
        · simp only [streamGo, hla, htu, Bool.false_eq_true, if_false, hflag, if_true]
          obtain ⟨ih1, ih2, ih3⟩ := ih (turns + 1)
            ((history ++ [Message.assistant a]) ++
              (executeToolsWithEvents hooksFor canUse tools sid (toolUsesOf a.content)).2.1)
          refine ⟨by omega, by omega, ?_⟩
          intro res hres
          rw [resultsOf_append, resultsOf_append, resultsOf_filter_not,
            resultsOf_map_event, List.nil_append, List.nil_append] at hres
          exact ih3 res hres

theorem completeGo_invariant (pc : CompleteProvider)
    (hooksFor : HookEvent → List HookMatcher) (canUse : Option CanUseTool)
    (tools : List ToolDefinition) (sid : String) :
    ∀ (fuel turns : Nat) (history : List Message),
      (completeGo pc hooksFor canUse tools sid turns fuel history).calls ≤ fuel ∧
      (completeGo pc hooksFor canUse tools sid turns fuel history).turns =
        turns + (completeGo pc hooksFor canUse tools sid turns fuel history).calls ∧
      ∀ res ∈ resultsOf (completeGo pc hooksFor canUse tools sid turns fuel history).out,
        res.is_error = false ∧
        res.num_turns = (completeGo pc hooksFor canUse tools sid turns fuel history).turns ∧
        res.session_id = some sid := by
  intro fuel
  induction fuel with
  | zero =>
    intro turns history
    refine ⟨Nat.le_refl 0, by simp [completeGo], ?_⟩
    intro res hres
    simp [completeGo, resultsOf] at hres
  | succ fuel ih =>
    intro turns history
    by_cases htu : (toolUsesOf (pc (turns + 1) history).content).isEmpty = true
    · simp only [completeGo, htu, if_true]
      refine ⟨by omega, by trivial, ?_⟩
      intro res hres
      simp [resultsOf] at hres
      subst hres
      exact ⟨rfl, rfl, rfl⟩
    · rcases hflag : (executeTools hooksFor canUse tools sid
          (toolUsesOf (pc (turns + 1) history).content)).2 with _ | _
      · simp only [completeGo, htu, Bool.false_eq_true, if_false, hflag]
        refine ⟨by omega, by trivial, ?_⟩
        intro res hres
        simp [resultsOf] at hres
        subst hres
        simp [mkResult]
      · simp only [completeGo, htu, Bool.false_eq_true, if_false, hflag, if_true]
        obtain ⟨ih1, ih2, ih3⟩ := ih (turns + 1)
          ((history ++ [Message.assistant (pc (turns + 1) history)]) ++
            (executeTools hooksFor canUse tools sid
              (toolUsesOf (pc (turns + 1) history).content)).1)
        refine ⟨by omega, by omega, ?_⟩
        intro res hres
        have hnil : resultsOf [AnyMessage.msg (Message.assistant (pc (turns + 1) history))] = [] := rfl
        rw [resultsOf_append, hnil, List.nil_append] at hres
        exact ih3 res hres

theorem streamGo_result_exists (provider : StreamProvider)
    (hooksFor : HookEvent → List HookMatcher) (canUse : Option CanUseTool)
    (tools : List ToolDefinition) (sid : String)
    (hp : ∀ t h, (lastAssistant (provider t h)).isSome = true) :
    ∀ (fuel turns : Nat) (history : List Message),
      resultsOf (streamGo provider hooksFor canUse tools sid turns fuel history).out ≠ [] ∨
      (streamGo provider hooksFor canUse tools sid turns fuel history).turns =
        turns + fuel := by
  intro fuel
  induction fuel with
  | zero =>
    intro turns history
    right
    simp [streamGo]
  | succ fuel ih =>
    intro turns history
    rcases hla : lastAssistant (provider (turns + 1) history) with _ | a
    · have hsome := hp (turns + 1) history
      rw [hla] at hsome
      simp at hsome
    · by_cases htu : (toolUsesOf a.content).isEmpty = true
      · left
        simp only [streamGo, hla, htu, if_true]
        rw [resultsOf_append, resultsOf_filter_not, List.nil_append]
        intro hcon
        simp [resultsOf] at hcon
      · rcases hflag : (executeToolsWithEvents hooksFor canUse tools sid
            (toolUsesOf a.content)).2.2 with _ | _
        · left
          simp only [streamGo, hla, htu, Bool.false_eq_true, if_false, hflag]
          rw [resultsOf_append, resultsOf_append, resultsOf_filter_not,
            resultsOf_map_event, List.nil_append, List.nil_append]
          intro hcon
          simp [resultsOf] at hcon
        · simp only [streamGo, hla, htu, Bool.false_eq_true, if_false, hflag, if_true]
          rcases ih (turns + 1) ((history ++ [Message.assistant a]) ++
              (executeToolsWithEvents hooksFor canUse tools sid (toolUsesOf a.content)).2.1)
            with h | h
          · left
            rw [resultsOf_append, resultsOf_append, resultsOf_filter_not,
              resultsOf_map_event, List.nil_append, List.nil_append]
            exact h
          · right
            rw [h]
            omega

theorem completeGo_result_exists (pc : CompleteProvider)
    (hooksFor : HookEvent → List HookMatcher) (canUse : Option CanUseTool)
    (tools : List ToolDefinition) (sid : String) :
    ∀ (fuel turns : Nat) (history : List Message),
      resultsOf (completeGo pc hooksFor canUse tools sid turns fuel history).out ≠ [] ∨
      (completeGo pc hooksFor canUse tools sid turns fuel history).turns =
        turns + fuel := by
  intro fuel
  induction fuel with
  | zero =>
    intro turns history
    right
    simp [completeGo]
  | succ fuel ih =>
    intro turns history
    by_cases htu : (toolUsesOf (pc (turns + 1) history).content).isEmpty = true
    · left
      simp only [completeGo, htu, if_true]
      intro hcon
      simp [resultsOf] at hcon
    · rcases hflag : (executeTools hooksFor canUse tools sid
          (toolUsesOf (pc (turns + 1) history).content)).2 with _ | _
      · left
        simp only [completeGo, htu, Bool.false_eq_true, if_false, hflag]
        intro hcon
        simp [resultsOf] at hcon
      · simp only [completeGo, htu, Bool.false_eq_true, if_false, hflag, if_true]
        rcases ih (turns + 1) ((history ++ [Message.assistant (pc (turns + 1) history)]) ++
            (executeTools hooksFor canUse tools sid
              (toolUsesOf (pc (turns + 1) history).content)).1) with h | h
        · left
          have hnil : resultsOf [AnyMessage.msg (Message.assistant (pc (turns + 1) history))]
              = [] := rfl
          rw [resultsOf_append, hnil, List.nil_append]
          exact h
        · right
          rw [h]
          omega

theorem run_results_spec (g : LoopResult) (maxT : Nat) (sid : String)
    (h3 : ∀ res ∈ resultsOf g.out,
      res.is_error = false ∧ res.num_turns = g.turns ∧ res.session_id = some sid) :
    ∀ res ∈ resultsOf (g.out ++
      (if maxT ≤ g.turns then [AnyMessage.result (mkResult sid g.turns)] else [])),
      res.is_error = false ∧ res.num_turns = g.turns ∧ res.session_id = some sid := by
  intro res hres
  rw [resultsOf_append] at hres
  rcases List.mem_append.mp hres with h | h
  · exact h3 res h
  · by_cases hle : maxT ≤ g.turns
    · rw [if_pos hle] at h
      simp [resultsOf] at h
      subst h
      exact ⟨rfl, rfl, rfl⟩
    · rw [if_neg hle] at h
      simp [resultsOf] at h

theorem run_result_exists (g : LoopResult) (maxT : Nat) (sid : String)
    (h : resultsOf g.out ≠ [] ∨ g.turns = 0 + maxT) :
    resultsOf (g.out ++
      (if maxT ≤ g.turns then [AnyMessage.result (mkResult sid g.turns)] else [])) ≠ [] := by
  rw [resultsOf_append]
  intro hcon
  rcases List.append_eq_nil.mp hcon with ⟨h1, h2⟩
  rcases h with hg | hg
  · exact hg h1
  · have hle : maxT ≤ g.turns := by omega
    rw [if_pos hle] at h2
    simp [resultsOf] at h2

/-- C1 counterexample: a provider whose stream yields no AssistantMessage
at all makes the streaming loop break without emitting any
ResultMessage, so receive() yields a sequence with no terminal
ResultMessage, contradicting the claim for arbitrary provider
behaviour. -/
theorem claim_C1_counterexample :
    ¬ ∃ pre r, receiveSeq (streamWithTools (fun _ _ => []) { max_turns := some 2 } "s" []) =
        pre ++ [AnyMessage.result r] := by
  rintro ⟨pre, r, h⟩
  have hnil : receiveSeq (streamWithTools (fun _ _ => ([] : List AnyMessage))
      { max_turns := some 2 } "s" []) = [] := rfl
  rw [hnil] at h
  exact List.cons_ne_nil _ _ (List.append_eq_nil.mp h.symm).2

/-- C1 amended: provided every provider stream call yields an
AssistantMessage (which the provider contract requires; complete always
does), each receive() invocation yields exactly one ResultMessage and
it is the last element of the sequence, on both the streaming and the
non-streaming path — in particular the second loop-exhaustion
ResultMessage the generator may produce is never surfaced. -/
theorem claim_C1_single_terminal (provider : StreamProvider) (pc : CompleteProvider)
    (opts : AgentOptions) (sid : String) (history : List Message)
    (hp : ∀ t h, (lastAssistant (provider t h)).isSome = true) :
    (∃ pre r, receiveSeq (streamWithTools provider opts sid history) =
        pre ++ [AnyMessage.result r] ∧ ∀ m ∈ pre, m.isResult = false) ∧
    (∃ pre r, receiveSeq (completeWithTools pc opts sid history) =
        pre ++ [AnyMessage.result r] ∧ ∀ m ∈ pre, m.isResult = false) := by
  constructor
  · apply receiveSeq_terminal
    exact run_result_exists
      (streamGo provider opts.hooks opts.can_use_tool opts.tools sid 0
        (effMaxTurns opts.max_turns) history)
      (effMaxTurns opts.max_turns) sid
      (streamGo_result_exists provider opts.hooks opts.can_use_tool opts.tools sid hp
        (effMaxTurns opts.max_turns) 0 history)
  · apply receiveSeq_terminal
    exact run_result_exists
      (completeGo pc opts.hooks opts.can_use_tool opts.tools sid 0
        (effMaxTurns opts.max_turns) history)
      (effMaxTurns opts.max_turns) sid
      (completeGo_result_exists pc opts.hooks opts.can_use_tool opts.tools sid
        (effMaxTurns opts.max_turns) 0 history)

/-- Witness for C1 at a concrete scripted provider. -/
theorem claim_C1_witness :
    (∃ pre r, receiveSeq (streamWithTools
        (fun _ _ => [AnyMessage.msg (Message.assistant { content := [ContentBlock.text "hi"] })])
        {} "s" []) = pre ++ [AnyMessage.result r] ∧ ∀ m ∈ pre, m.isResult = false) ∧
    (∃ pre r, receiveSeq (completeWithTools
        (fun _ _ => { content := [ContentBlock.text "hi"] })
        {} "s" []) = pre ++ [AnyMessage.result r] ∧ ∀ m ∈ pre, m.isResult = false) :=
  claim_C1_single_terminal
    (fun _ _ => [AnyMessage.msg (Message.assistant { content := [ContentBlock.text "hi"] })])
    (fun _ _ => { content := [ContentBlock.text "hi"] })
    {} "s" [] (fun _ _ => rfl)

theorem effMaxTurns_pos (N : Nat) (hN : 0 < N) : effMaxTurns (some N) = N := by
  simp [effMaxTurns, Nat.pos_iff_ne_zero.mp hN]

/-- C3: with max_turns = N > 0 both loops make at most N provider calls
per receive() invocation, every yielded ResultMessage has
is_error=false, and when all N calls were used (the bound is exhausted)
its num_turns is exactly N. -/
theorem claim_C3_turn_bound (N : Nat) (provider : StreamProvider) (pc : CompleteProvider)
    (opts : AgentOptions) (sid : String) (history : List Message)
    (hN : 0 < N) (hopt : opts.max_turns = some N) :
    (streamRun provider opts sid history).calls ≤ N ∧
    (completeRun pc opts sid history).calls ≤ N ∧
    (∀ res ∈ resultsOf (streamWithTools provider opts sid history),
      res.is_error = false ∧
        ((streamRun provider opts sid history).calls = N → res.num_turns = N)) ∧
    (∀ res ∈ resultsOf (completeWithTools pc opts sid history),
      res.is_error = false ∧
        ((completeRun pc opts sid history).calls = N → res.num_turns = N)) := by
  have hEff : effMaxTurns opts.max_turns = N := by
    rw [hopt]
    exact effMaxTurns_pos N hN
  obtain ⟨s1, s2, s3⟩ := streamGo_invariant provider opts.hooks opts.can_use_tool
    opts.tools sid (effMaxTurns opts.max_turns) 0 history
  obtain ⟨c1, c2, c3⟩ := completeGo_invariant pc opts.hooks opts.can_use_tool
    opts.tools sid (effMaxTurns opts.max_turns) 0 history
  refine ⟨by rw [← hEff]; exact s1, by rw [← hEff]; exact c1, ?_, ?_⟩
  · intro res hres
    have hall := run_results_spec
      (streamGo provider opts.hooks opts.can_use_tool opts.tools sid 0
        (effMaxTurns opts.max_turns) history)
      (effMaxTurns opts.max_turns) sid s3 res hres
    refine ⟨hall.1, fun hcalls => ?_⟩
    have hcalls2 : (streamGo provider opts.hooks opts.can_use_tool opts.tools sid 0
        (effMaxTurns opts.max_turns) history).calls = N := hcalls
    rw [hall.2.1]
    omega
  · intro res hres
    have hall := run_results_spec
      (completeGo pc opts.hooks opts.can_use_tool opts.tools sid 0
        (effMaxTurns opts.max_turns) history)
      (effMaxTurns opts.max_turns) sid c3 res hres
    refine ⟨hall.1, fun hcalls => ?_⟩
    have hcalls2 : (completeGo pc opts.hooks opts.can_use_tool opts.tools sid 0
        (effMaxTurns opts.max_turns) history).calls = N := hcalls
    rw [hall.2.1]
    omega

/-- Witness for C3 at N = 1 with a concrete scripted provider. -/
theorem claim_C3_witness :
    (streamRun (fun _ _ => [AnyMessage.msg (Message.assistant { content := [ContentBlock.text "hi"] })])
      { max_turns := some 1 } "s" []).calls ≤ 1 ∧
    (completeRun (fun _ _ => { content := [ContentBlock.text "hi"] })
      { max_turns := some 1 } "s" []).calls ≤ 1 ∧
    (∀ res ∈ resultsOf (streamWithTools
        (fun _ _ => [AnyMessage.msg (Message.assistant { content := [ContentBlock.text "hi"] })])
        { max_turns := some 1 } "s" []),
      res.is_error = false ∧
        ((streamRun (fun _ _ => [AnyMessage.msg (Message.assistant { content := [ContentBlock.text "hi"] })])
          { max_turns := some 1 } "s" []).calls = 1 → res.num_turns = 1)) ∧
    (∀ res ∈ resultsOf (completeWithTools
        (fun _ _ => { content := [ContentBlock.text "hi"] }) { max_turns := some 1 } "s" []),
      res.is_error = false ∧
        ((completeRun (fun _ _ => { content := [ContentBlock.text "hi"] })
          { max_turns := some 1 } "s" []).calls = 1 → res.num_turns = 1)) :=
  claim_C3_turn_bound 1
    (fun _ _ => [AnyMessage.msg (Message.assistant { content := [ContentBlock.text "hi"] })])
    (fun _ _ => { content := [ContentBlock.text "hi"] })
    { max_turns := some 1 } "s" [] (by decide) rfl

/-! ## C7: stream-to-message consistency -/

theorem textDeltaConcat_append (t f : String) (l1 l2 : List StreamEvent) :
    textDeltaConcat t f (l1 ++ l2) =
      textDeltaConcat t f l1 ++ textDeltaConcat t f l2 := by
  simp [textDeltaConcat, List.map_append, strConcat_append]

theorem argPayloadConcat_append (idx : Nat) (l1 l2 : List StreamEvent) :
    argPayloadConcat idx (l1 ++ l2) =
      argPayloadConcat idx l1 ++ argPayloadConcat idx l2 := by
  simp [argPayloadConcat, List.map_append, strConcat_append]

theorem textDeltaConcat_empty_of (t f : String) (l : List StreamEvent)
    (h : ∀ e ∈ l, textDeltaStr t f e = "") : textDeltaConcat t f l = "" :=
  strConcat_all_empty _ (by
    intro x hx
    obtain ⟨e, he, rfl⟩ := List.mem_map.mp hx
    exact h e he)

theorem argPayloadConcat_empty_of (idx : Nat) (l : List StreamEvent)
    (h : ∀ e ∈ l, argPayloadStr idx e = "") : argPayloadConcat idx l = "" :=
  strConcat_all_empty _ (by
    intro x hx
    obtain ⟨e, he, rfl⟩ := List.mem_map.mp hx
    exact h e he)

theorem textDeltaStr_oaToolCallEvent (tc : OAToolCallDelta) :
    textDeltaStr "text" "text" (oaToolCallEvent tc) = "" := rfl

theorem textDeltaStr_oaTextEvent (s : String) :
    textDeltaStr "text" "text" (oaTextEvent s) = s := rfl

theorem argPayloadStr_oaTextEvent (idx : Nat) (s : String) :
    argPayloadStr idx (oaTextEvent s) = "" := rfl

theorem oaFinishSet_content_text (st : OAState) (fr : Option String) :
    (if strOptTruthy fr = true then { st with finish_reason := fr } else st).content_text =
      st.content_text := by
  split <;> rfl

theorem oaFinishSet_tool_calls (st : OAState) (fr : Option String) :
    (if strOptTruthy fr = true then { st with finish_reason := fr } else st).tool_calls =
      st.tool_calls := by
  split <;> rfl

theorem oaModelSet_content_text (st : OAState) (m : String) :
    (if (m != "") = true then { st with model := m } else st).content_text =
      st.content_text := by
  split <;> rfl

theorem oaModelSet_tool_calls (st : OAState) (m : String) :
    (if (m != "") = true then { st with model := m } else st).tool_calls =
      st.tool_calls := by
  split <;> rfl

theorem oaToolCallsStep_content_text (st : OAState) (tcs : List OAToolCallDelta) :
    (oaToolCallsStep st tcs).1.content_text = st.content_text := by
  unfold oaToolCallsStep
  split <;> rfl

theorem oaContentStep_text (st : OAState) (content : Option String) :
    (oaContentStep st content).1.content_text =
      st.content_text ++ textDeltaConcat "text" "text" (oaContentStep st content).2 := by
  rcases content with _ | s
  · simp [oaContentStep, textDeltaConcat, strConcat, String.append_empty]
  · by_cases hs : (s != "") = true
    · simp only [oaContentStep, hs, if_true]
      simp [textDeltaConcat, strConcat, textDeltaStr_oaTextEvent, String.append_empty]
    · have hs2 : s = "" := by simpa using hs
      simp [oaContentStep, hs, textDeltaConcat, strConcat, String.append_empty]

theorem oaContentStep_tool_calls (st : OAState) (content : Option String) :
    (oaContentStep st content).1.tool_calls = st.tool_calls := by
  unfold oaContentStep
  repeat' split
  all_goals rfl

theorem oaToolCallsStep_textDelta_zero (st : OAState) (tcs : List OAToolCallDelta) :
    textDeltaConcat "text" "text" (oaToolCallsStep st tcs).2 = "" :=
  textDeltaConcat_empty_of _ _ _ (by
    intro e he
    obtain ⟨tc, rfl⟩ := oaToolCallsStep_event_shape _ _ e he
    exact textDeltaStr_oaToolCallEvent tc)

theorem oaStep_text (st : OAState) (c : OAChunk) :
    (oaStep st c).1.content_text =
      st.content_text ++ textDeltaConcat "text" "text" (oaStep st c).2 := by
  rcases c with ⟨choices, cmodel, cusage⟩
  rcases choices with _ | ⟨choice, rest⟩
  · rcases cusage with _ | u <;>
      simp [oaStep, textDeltaConcat, strConcat, String.append_empty]
  · simp only [oaStep]
    rw [textDeltaConcat_append, oaFinishSet_content_text, oaToolCallsStep_content_text,
      oaContentStep_text, oaModelSet_content_text, oaToolCallsStep_textDelta_zero,
      String.append_empty]

theorem oaFold_text (chunks : List OAChunk) (st : OAState) :
    (oaFold st chunks).1.content_text =
      st.content_text ++ textDeltaConcat "text" "text" (oaFold st chunks).2 := by
  induction chunks generalizing st with
  | nil => simp [oaFold, textDeltaConcat, strConcat, String.append_empty]
  | cons c rest ih =>
    simp only [oaFold]
    rw [textDeltaConcat_append, ih, oaStep_text, String.append_assoc]

theorem textBlocksConcat_oaBlocks (pj : String → Option Json) (st : OAState) :
    textBlocksConcat (oaBlocks pj st) = st.content_text := by
  unfold oaBlocks textBlocksConcat
  rw [List.map_append, strConcat_append]
  have htool : strConcat (((List.insertionSort (fun p q : Nat × OAToolAcc => p.1 ≤ q.1)
      st.tool_calls).map (fun p => ContentBlock.toolUse
        { id := p.2.id, name := p.2.name, input := oaParseArgs pj p.2.arguments })).map
      (fun b => match b with | ContentBlock.text t => t | _ => "")) = "" := by
    apply strConcat_all_empty
    intro x hx
    obtain ⟨b, hb, rfl⟩ := List.mem_map.mp hx
    obtain ⟨p, hp, rfl⟩ := List.mem_map.mp hb
    rfl
  rw [htool, String.append_empty]
  by_cases hc : (st.content_text != "") = true
  · simp [hc, strConcat, String.append_empty]
  · have : st.content_text = "" := by simpa using hc
    simp [hc, strConcat, this]

theorem oaLookup_append_of_none (m1 m2 : List (Nat × OAToolAcc)) (idx : Nat)
    (h : oaLookup m1 idx = none) : oaLookup (m1 ++ m2) idx = oaLookup m2 idx := by
  induction m1 with
  | nil => rfl
  | cons p t ih =>
    by_cases hp : p.1 = idx
    · rw [oaLookup, if_pos hp] at h
      cases h
    · rw [oaLookup, if_neg hp] at h
      rw [List.cons_append, oaLookup, if_neg hp]
      exact ih h

theorem oaLookup_append_of_some (m1 m2 : List (Nat × OAToolAcc)) (idx : Nat)
    (a : OAToolAcc) (h : oaLookup m1 idx = some a) :
    oaLookup (m1 ++ m2) idx = some a := by
  induction m1 with
  | nil => cases h
  | cons p t ih =>
    by_cases hp : p.1 = idx
    · rw [oaLookup, if_pos hp] at h
      rw [List.cons_append, oaLookup, if_pos hp]
      exact h
    · rw [oaLookup, if_neg hp] at h
      rw [List.cons_append, oaLookup, if_neg hp]
      exact ih h

theorem oaLookup_single_self (k : Nat) (v : OAToolAcc) :
    oaLookup [(k, v)] k = some v := by
  rw [oaLookup, if_pos rfl]

theorem oaLookup_single_ne (k : Nat) (v : OAToolAcc) (idx : Nat) (h : k ≠ idx) :
    oaLookup [(k, v)] idx = none := by
  rw [oaLookup, if_neg h]
  rfl

theorem oaLookup_update_self (m : List (Nat × OAToolAcc)) (k : Nat)
    (f : OAToolAcc → OAToolAcc) :
    oaLookup (oaUpdate m k f) k = (oaLookup m k).map f := by
  induction m with
  | nil => rfl
  | cons p t ih =>
    by_cases hp : p.1 = k
    · rw [oaUpdate, if_pos hp, oaLookup, if_pos hp, oaLookup, if_pos hp]
      rfl
    · rw [oaUpdate, if_neg hp, oaLookup, if_neg hp, oaLookup, if_neg hp]
      exact ih

theorem oaLookup_update_ne (m : List (Nat × OAToolAcc)) (k : Nat)
    (f : OAToolAcc → OAToolAcc) (idx : Nat) (h : k ≠ idx) :
    oaLookup (oaUpdate m k f) idx = oaLookup m idx := by
  induction m with
  | nil => rfl
  | cons p t ih =>
    by_cases hp : p.1 = k
    · have hpidx : ¬ p.1 = idx := by rw [hp]; exact h
      rw [oaUpdate, if_pos hp, oaLookup, if_neg hpidx, oaLookup, if_neg hpidx]
      exact ih
    · by_cases hpi : p.1 = idx
      · rw [oaUpdate, if_neg hp, oaLookup, if_pos hpi, oaLookup, if_pos hpi]
      · rw [oaUpdate, if_neg hp, oaLookup, if_neg hpi, oaLookup, if_neg hpi]
        exact ih

theorem oaLookup_update_isSome (m : List (Nat × OAToolAcc)) (k : Nat)
    (f : OAToolAcc → OAToolAcc) (a : OAToolAcc) (h : oaLookup m k = some a) :
    oaLookup (oaUpdate m k f) k = some (f a) := by
  rw [oaLookup_update_self, h]
  rfl

theorem oaArgs_update_keep (m : List (Nat × OAToolAcc)) (k : Nat)
    (f : OAToolAcc → OAToolAcc) (hkeep : ∀ x, (f x).arguments = x.arguments)
    (idx : Nat) :
    oaArgsStr (oaLookup (oaUpdate m k f) idx) = oaArgsStr (oaLookup m idx) := by
  by_cases h : k = idx
  · subst h
    rw [oaLookup_update_self]
    rcases oaLookup m k with _ | a
    · rfl
    · simp [oaArgsStr, hkeep]
  · rw [oaLookup_update_ne _ _ _ _ h]

theorem argPayloadStr_oaToolCallEvent_self (tc : OAToolCallDelta) :
    argPayloadStr tc.index (oaToolCallEvent tc) =
      (match tc.function with
       | some f => (match f.arguments with | some s => s | none => "")
       | none => "") := by
  rcases hf : tc.function with _ | f
  · simp [argPayloadStr, oaToolCallEvent, hf, Json.getField, jsonOfOptStr]
  · rcases hargs : f.arguments with _ | s <;>
      simp [argPayloadStr, oaToolCallEvent, hf, hargs, Json.getField, jsonOfOptStr]

theorem argPayloadStr_oaToolCallEvent_ne (tc : OAToolCallDelta) (idx : Nat)
    (h : tc.index ≠ idx) : argPayloadStr idx (oaToolCallEvent tc) = "" := by
  have hb : (some tc.index == some idx) = false := by simp [h]
  simp [argPayloadStr, oaToolCallEvent, hb]

theorem oaTCInsert_args_self (m : List (Nat × OAToolAcc)) (tc : OAToolCallDelta) :
    ∃ a, oaLookup (oaTCInsert m tc) tc.index = some a ∧
      a.arguments = oaArgsStr (oaLookup m tc.index) := by
  unfold oaTCInsert
  rcases h : oaLookup m tc.index with _ | a
  · simp only [Option.isNone_none, if_true]
    refine ⟨{ id := tc.id.getD "", name := "", arguments := "" }, ?_, rfl⟩
    rw [oaLookup_append_of_none m _ tc.index h, oaLookup_single_self]
  · simp only [Option.isNone_some, Bool.false_eq_true, if_false]
    exact ⟨a, h, rfl⟩

theorem oaTCInsert_lookup_ne (m : List (Nat × OAToolAcc)) (tc : OAToolCallDelta)
    (idx : Nat) (h : tc.index ≠ idx) :
    oaLookup (oaTCInsert m tc) idx = oaLookup m idx := by
  unfold oaTCInsert
  split
  · rcases hh : oaLookup m idx with _ | a
    · rw [oaLookup_append_of_none m _ idx hh, oaLookup_single_ne _ _ _ h]
    · exact oaLookup_append_of_some m _ idx a hh
  · rfl

theorem oaTCSetId_args (m : List (Nat × OAToolAcc)) (tc : OAToolCallDelta) (idx : Nat) :
    oaArgsStr (oaLookup (oaTCSetId m tc) idx) = oaArgsStr (oaLookup m idx) := by
  unfold oaTCSetId
  split
  · exact oaArgs_update_keep m tc.index
      (fun a => { a with id := tc.id.getD "" }) (fun x => rfl) idx
  · rfl

theorem oaTCSetId_isSome (m : List (Nat × OAToolAcc)) (tc : OAToolCallDelta)
    (a : OAToolAcc) (h : oaLookup m tc.index = some a) :
    ∃ a2, oaLookup (oaTCSetId m tc) tc.index = some a2 := by
  unfold oaTCSetId
  split
  · exact ⟨_, oaLookup_update_isSome _ _ _ _ h⟩
  · exact ⟨a, h⟩

theorem oaTCSetFn_args_self (m : List (Nat × OAToolAcc)) (tc : OAToolCallDelta)
    (a : OAToolAcc) (ha : oaLookup m tc.index = some a) :
    oaArgsStr (oaLookup (oaTCSetFn m tc) tc.index) =
      oaArgsStr (oaLookup m tc.index) ++ argPayloadStr tc.index (oaToolCallEvent tc) := by
  rw [argPayloadStr_oaToolCallEvent_self]
  unfold oaTCSetFn
  rcases hf : tc.function with _ | f
  · rw [String.append_empty]
  · dsimp only []
    by_cases hga : strOptTruthy f.arguments = true
    · rw [if_pos hga]
      rcases hfa : f.arguments with _ | s
      · rw [hfa] at hga
        simp [strOptTruthy] at hga
      · by_cases hn : strOptTruthy f.name = true
        · rw [if_pos hn]
          have h3 := oaLookup_update_isSome m tc.index
            (fun x => { x with name := f.name.getD "" }) a ha
          rw [oaLookup_update_isSome _ _ _ _ h3, ha]
          rfl
        · rw [if_neg hn, oaLookup_update_isSome _ _ _ _ ha, ha]
          rfl
    · rw [if_neg hga]
      have hpay : (match f.arguments with | some s => s | none => "") = "" := by
        rcases hfa : f.arguments with _ | s
        · rfl
        · rw [hfa] at hga
          simp [strOptTruthy] at hga
          exact hga
      rw [hpay, String.append_empty]
      by_cases hn : strOptTruthy f.name = true
      · rw [if_pos hn]
        exact oaArgs_update_keep m tc.index
          (fun x => { x with name := f.name.getD "" }) (fun x => rfl) tc.index
      · rw [if_neg hn]

theorem oaTCSetFn_lookup_ne (m : List (Nat × OAToolAcc)) (tc : OAToolCallDelta)
    (idx : Nat) (h : tc.index ≠ idx) :
    oaLookup (oaTCSetFn m tc) idx = oaLookup m idx := by
  have hu : ∀ (mm : List (Nat × OAToolAcc)) (f : OAToolAcc → OAToolAcc),
      oaLookup (oaUpdate mm tc.index f) idx = oaLookup mm idx :=
    fun mm f => oaLookup_update_ne mm tc.index f idx h
  unfold oaTCSetFn
  rcases tc.function with _ | f
  · rfl
  · repeat' split
    all_goals simp only [hu]

theorem oaProcessToolCall_args (m : List (Nat × OAToolAcc)) (tc : OAToolCallDelta)
    (idx : Nat) :
    oaArgsStr (oaLookup (oaProcessToolCall m tc) idx) =
      oaArgsStr (oaLookup m idx) ++ argPayloadStr idx (oaToolCallEvent tc) := by
  by_cases h : tc.index = idx
  · subst h
    obtain ⟨a, ha, hargs⟩ := oaTCInsert_args_self m tc
    obtain ⟨a2, ha2⟩ := oaTCSetId_isSome _ tc a ha
    rw [oaProcessToolCall, oaTCSetFn_args_self _ _ _ ha2, oaTCSetId_args]
    rw [ha]
    show a.arguments ++ _ = _
    rw [hargs]
  · rw [oaProcessToolCall, oaTCSetFn_lookup_ne _ _ _ h]
    have hid : oaLookup (oaTCSetId (oaTCInsert m tc) tc) idx =
        oaLookup (oaTCInsert m tc) idx := by
      unfold oaTCSetId
      split
      · exact oaLookup_update_ne _ _ _ _ h
      · rfl
    rw [hid, oaTCInsert_lookup_ne _ _ _ h, argPayloadStr_oaToolCallEvent_ne _ _ h,
      String.append_empty]

theorem oaProcessToolCalls_args (tcs : List OAToolCallDelta)
    (m : List (Nat × OAToolAcc)) (idx : Nat) :
    oaArgsStr (oaLookup (oaProcessToolCalls m tcs).1 idx) =
      oaArgsStr (oaLookup m idx) ++ argPayloadConcat idx (oaProcessToolCalls m tcs).2 := by
  induction tcs generalizing m with
  | nil => simp [oaProcessToolCalls, argPayloadConcat, strConcat, String.append_empty]
  | cons tc rest ih =>
    simp only [oaProcessToolCalls]
    have hcons : ∀ (e : StreamEvent) (l : List StreamEvent),
        argPayloadConcat idx (e :: l) = argPayloadStr idx e ++ argPayloadConcat idx l :=
      fun e l => rfl
    rw [hcons, ih (oaProcessToolCall m tc), oaProcessToolCall_args, String.append_assoc]

theorem oaContentStep_argPayload_zero (st : OAState) (content : Option String)
    (idx : Nat) : argPayloadConcat idx (oaContentStep st content).2 = "" := by
  unfold oaContentStep
  repeat' split
  all_goals simp [argPayloadConcat, strConcat, argPayloadStr_oaTextEvent,
    String.append_empty]

theorem oaToolCallsStep_args (st : OAState) (tcs : List OAToolCallDelta) (idx : Nat) :
    oaArgsStr (oaLookup (oaToolCallsStep st tcs).1.tool_calls idx) =
      oaArgsStr (oaLookup st.tool_calls idx) ++
        argPayloadConcat idx (oaToolCallsStep st tcs).2 := by
  unfold oaToolCallsStep
  split
  · simp [argPayloadConcat, strConcat, String.append_empty]
  · exact oaProcessToolCalls_args tcs st.tool_calls idx

theorem oaStep_args (st : OAState) (c : OAChunk) (idx : Nat) :
    oaArgsStr (oaLookup (oaStep st c).1.tool_calls idx) =
      oaArgsStr (oaLookup st.tool_calls idx) ++ argPayloadConcat idx (oaStep st c).2 := by
  rcases c with ⟨choices, cmodel, cusage⟩
  rcases choices with _ | ⟨choice, rest⟩
  · rcases cusage with _ | u <;>
      simp [oaStep, argPayloadConcat, strConcat, String.append_empty]
  · simp only [oaStep]
    rw [argPayloadConcat_append, oaFinishSet_tool_calls, oaToolCallsStep_args,
      oaContentStep_tool_calls, oaModelSet_tool_calls, oaContentStep_argPayload_zero,
      String.empty_append]

theorem oaFold_args (chunks : List OAChunk) (st : OAState) (idx : Nat) :
    oaArgsStr (oaLookup (oaFold st chunks).1.tool_calls idx) =
      oaArgsStr (oaLookup st.tool_calls idx) ++
        argPayloadConcat idx (oaFold st chunks).2 := by
  induction chunks generalizing st with
  | nil => simp [oaFold, argPayloadConcat, strConcat, String.append_empty]
  | cons c rest ih =>
    simp only [oaFold]
    rw [argPayloadConcat_append, ih, oaStep_args, String.append_assoc]

theorem oaLookup_mem (m : List (Nat × OAToolAcc)) (idx : Nat) (a : OAToolAcc)
    (h : oaLookup m idx = some a) : (idx, a) ∈ m := by
  induction m with
  | nil => cases h
  | cons p t ih =>
    by_cases hp : p.1 = idx
    · subst hp
      rw [oaLookup, if_pos rfl] at h
      cases h
      exact List.mem_cons_self p t
    · rw [oaLookup, if_neg hp] at h
      exact List.mem_cons_of_mem p (ih h)

theorem oaBlocks_mem (pj : String → Option Json) (st : OAState) (idx : Nat)
    (a : OAToolAcc) (h : oaLookup st.tool_calls idx = some a) :
    ContentBlock.toolUse
        { id := a.id, name := a.name, input := oaParseArgs pj a.arguments } ∈
      oaBlocks pj st := by
  have hmem : (idx, a) ∈ st.tool_calls := oaLookup_mem _ _ _ h
  have hmem2 : (idx, a) ∈ List.insertionSort (fun p q : Nat × OAToolAcc => p.1 ≤ q.1)
      st.tool_calls :=
    ((List.perm_insertionSort _ st.tool_calls).mem_iff).mpr hmem
  unfold oaBlocks
  exact List.mem_append_right _ (List.mem_map_of_mem _ hmem2)

theorem assistantsOf_stream (evts : List StreamEvent) (a : AssistantMessage)
    (r : ResultMessage) :
    assistantsOf (evts.map AnyMessage.event ++
      [AnyMessage.msg (Message.assistant a), AnyMessage.result r]) = [a] := by
  induction evts with
  | nil => rfl
  | cons e rest ih =>
    show assistantsOf (AnyMessage.event e :: (rest.map AnyMessage.event ++ _)) = _
    rw [show assistantsOf (AnyMessage.event e :: (rest.map AnyMessage.event ++
        [AnyMessage.msg (Message.assistant a), AnyMessage.result r])) =
      assistantsOf (rest.map AnyMessage.event ++
        [AnyMessage.msg (Message.assistant a), AnyMessage.result r]) from rfl, ih]

theorem clFold_append (pj : String → Option Json) (l1 l2 : List ClEvent) (st : ClState) :
    clFold pj st (l1 ++ l2) =
      ((clFold pj (clFold pj st l1).1 l2).1,
       (clFold pj st l1).2 ++ (clFold pj (clFold pj st l1).1 l2).2) := by
  induction l1 generalizing st with
  | nil => simp [clFold]
  | cons e rest ih =>
    simp only [List.cons_append, clFold]
    rw [show rest.append l2 = rest ++ l2 from rfl, ih]
    simp [List.append_assoc]

theorem clFold_text_deltas (pj : String → Option Json) (ds : List String) (st : ClState) :
    clFold pj st (ds.map (fun d => ClEvent.content_block_delta 0 (ClDelta.text_delta d))) =
      ({ st with current_text := st.current_text ++ strConcat ds },
       ds.map (fun d => clDeltaEvent 0 (ClDelta.text_delta d))) := by
  induction ds generalizing st with
  | nil =>
    simp only [List.map_nil, clFold]
    rw [show strConcat [] = "" from rfl, String.append_empty]
  | cons d rest ih =>
    simp only [List.map_cons, clFold, clStep]
    rw [ih]
    simp only [strConcat_cons, String.append_assoc, List.singleton_append]

theorem clFold_json_deltas (pj : String → Option Json) (fs : List String) (st : ClState)
    (ct : ClToolAcc) (h : st.current_tool_use = some ct) :
    clFold pj st
        (fs.map (fun f => ClEvent.content_block_delta 0 (ClDelta.input_json_delta f))) =
      ({ st with current_tool_use := some { ct with input := ct.input ++ strConcat fs } },
       fs.map (fun f => clDeltaEvent 0 (ClDelta.input_json_delta f))) := by
  induction fs generalizing st ct with
  | nil =>
    simp only [List.map_nil, clFold]
    rw [show strConcat [] = "" from rfl, String.append_empty, ← h]
  | cons f rest ih =>
    simp only [List.map_cons, clFold, clStep, h]
    rw [ih { st with current_tool_use := some { ct with input := ct.input ++ f } }
      { ct with input := ct.input ++ f } rfl]
    simp only [strConcat_cons, String.append_assoc, List.singleton_append]

theorem clFold_thinking_deltas (pj : String → Option Json) (ds : List String)
    (st : ClState) :
    clFold pj st
        (ds.map (fun d => ClEvent.content_block_delta 0 (ClDelta.thinking_delta d))) =
      ({ st with current_thinking := st.current_thinking ++ strConcat ds },
       ds.map (fun d => clDeltaEvent 0 (ClDelta.thinking_delta d))) := by
  induction ds generalizing st with
  | nil =>
    simp only [List.map_nil, clFold]
    rw [show strConcat [] = "" from rfl, String.append_empty]
  | cons d rest ih =>
    simp only [List.map_cons, clFold, clStep]
    rw [ih]
    simp only [strConcat_cons, String.append_assoc, List.singleton_append]

theorem textDeltaConcat_cons (t f : String) (e : StreamEvent) (l : List StreamEvent) :
    textDeltaConcat t f (e :: l) = textDeltaStr t f e ++ textDeltaConcat t f l := rfl

theorem textDeltaStr_clDeltaEvent_text (idx : Nat) (t : String) :
    textDeltaStr "text_delta" "text" (clDeltaEvent idx (ClDelta.text_delta t)) = t := rfl

theorem clStep_textDelta (pj : String → Option Json) (st : ClState) (e : ClEvent) :
    textDeltaConcat "text_delta" "text" (clStep pj st e).2 = clEventTextStr e := by
  cases e with
  | message_start m u => rfl
  | content_block_start idx b => cases b <;> rfl
  | content_block_delta idx d =>
    cases d with
    | text_delta t =>
      show textDeltaStr "text_delta" "text" (clDeltaEvent idx (ClDelta.text_delta t)) ++ "" = t
      rw [textDeltaStr_clDeltaEvent_text, String.append_empty]
    | input_json_delta f => rfl
    | thinking_delta t => rfl
    | signature_delta s => rfl
  | content_block_stop idx => rfl
  | message_delta sr u => rfl
  | message_stop => rfl

theorem clFold_textDelta (pj : String → Option Json) (st : ClState) (evts : List ClEvent) :
    textDeltaConcat "text_delta" "text" (clFold pj st evts).2 =
      strConcat (evts.map clEventTextStr) := by
  induction evts generalizing st with
  | nil => rfl
  | cons e rest ih =>
    simp only [clFold, List.map_cons, strConcat_cons]
    rw [textDeltaConcat_append, clStep_textDelta, ih]

theorem strConcat_map_textStr_text (idx : Nat) (ds : List String) :
    strConcat ((ds.map
        (fun d => ClEvent.content_block_delta idx (ClDelta.text_delta d))).map
      clEventTextStr) = strConcat ds := by
  induction ds with
  | nil => rfl
  | cons d rest ih =>
    simp only [List.map_cons, strConcat_cons]
    rw [ih]
    rfl

theorem strConcat_map_textStr_empty {α : Type} (f : α → ClEvent) (l : List α)
    (h : ∀ a, clEventTextStr (f a) = "") :
    strConcat ((l.map f).map clEventTextStr) = "" := by
  induction l with
  | nil => rfl
  | cons x xs ih =>
    simp only [List.map_cons, strConcat_cons]
    rw [h x, ih, String.empty_append]

theorem clEventTextStr_start (idx : Nat) (b : ClStartBlock) :
    clEventTextStr (ClEvent.content_block_start idx b) = "" := by
  cases b <;> rfl

theorem clEventTextStr_stop (idx : Nat) :
    clEventTextStr (ClEvent.content_block_stop idx) = "" := rfl

theorem clEventTextStr_json (idx : Nat) (f : String) :
    clEventTextStr (ClEvent.content_block_delta idx (ClDelta.input_json_delta f)) = "" :=
  rfl

theorem clEventTextStr_think (idx : Nat) (t : String) :
    clEventTextStr (ClEvent.content_block_delta idx (ClDelta.thinking_delta t)) = "" :=
  rfl

theorem clEventTextStr_sig (idx : Nat) (s : String) :
    clEventTextStr (ClEvent.content_block_delta idx (ClDelta.signature_delta s)) = "" :=
  rfl

theorem blockEvents_textStr (b : BlockScript) :
    strConcat ((blockEvents b).map clEventTextStr) = scriptTextStr b := by
  cases b with
  | text ds =>
    simp only [blockEvents, scriptTextStr, List.map_cons, List.map_append,
      List.map_nil, strConcat_cons, strConcat_append, clEventTextStr_start,
      clEventTextStr_stop, strConcat_map_textStr_text]
    rw [show strConcat ([] : List String) = "" from rfl, String.empty_append,
      String.append_empty, String.append_empty]
  | tool id name fs =>
    simp only [blockEvents, scriptTextStr, List.map_cons, List.map_append,
      List.map_nil, strConcat_cons, strConcat_append, clEventTextStr_start,
      clEventTextStr_stop,
      strConcat_map_textStr_empty
        (fun f => ClEvent.content_block_delta 0 (ClDelta.input_json_delta f)) fs
        (fun a => clEventTextStr_json 0 a)]
    rw [show strConcat ([] : List String) = "" from rfl, String.empty_append,
      String.empty_append, String.append_empty]
  | thinking ds s? =>
    cases s? with
    | none =>
      simp only [blockEvents, scriptTextStr, List.map_cons, List.map_append,
        List.map_nil, List.append_nil, strConcat_cons, strConcat_append,
        clEventTextStr_start, clEventTextStr_stop,
        strConcat_map_textStr_empty
          (fun d => ClEvent.content_block_delta 0 (ClDelta.thinking_delta d)) ds
          (fun a => clEventTextStr_think 0 a)]
      rw [show strConcat ([] : List String) = "" from rfl, String.empty_append,
        String.empty_append, String.append_empty]
    | some s =>
      simp only [blockEvents, scriptTextStr, List.map_cons, List.map_append,
        List.map_nil, strConcat_cons, strConcat_append, clEventTextStr_start,
        clEventTextStr_stop, clEventTextStr_sig,
        strConcat_map_textStr_empty
          (fun d => ClEvent.content_block_delta 0 (ClDelta.thinking_delta d)) ds
          (fun a => clEventTextStr_think 0 a)]
      rw [show strConcat ([] : List String) = "" from rfl, String.empty_append,
        String.empty_append, String.empty_append, String.append_empty]

theorem flatten_blockEvents_textStr (scripts : List BlockScript) :
    strConcat (((scripts.map blockEvents).flatten).map clEventTextStr) =
      strConcat (scripts.map scriptTextStr) := by
  induction scripts with
  | nil => rfl
  | cons b rest ih =>
    simp only [List.map_cons, List.flatten_cons, List.map_append, strConcat_append]
    rw [blockEvents_textStr, ih, strConcat_cons]

theorem scriptEvents_textStr (m : String) (sr : Option String)
    (scripts : List BlockScript) :
    strConcat ((scriptEvents m sr scripts).map clEventTextStr) =
      strConcat (scripts.map scriptTextStr) := by
  simp only [scriptEvents, List.map_cons, List.map_nil, strConcat_cons,
    List.map_append, strConcat_append,
    show clEventTextStr (ClEvent.message_start m none) = "" from rfl,
    show clEventTextStr (ClEvent.message_delta sr none) = "" from rfl,
    show clEventTextStr ClEvent.message_stop = "" from rfl]
  rw [flatten_blockEvents_textStr, show strConcat ([] : List String) = "" from rfl,
    String.empty_append, String.empty_append, String.empty_append, String.append_empty]

theorem clFold_append_fst (pj : String → Option Json) (l1 l2 : List ClEvent)
    (st : ClState) :
    (clFold pj st (l1 ++ l2)).1 = (clFold pj (clFold pj st l1).1 l2).1 := by
  rw [clFold_append]

theorem clFold_blockEvents (pj : String → Option Json) (cbs : List ContentBlock)
    (csig mdl : String) (usg : Option Usage) (sr : Option String) (b : BlockScript) :
    (clFold pj (clCleanState cbs csig mdl usg sr) (blockEvents b)).1 =
      clCleanState (cbs ++ blockAdds pj csig b) (blockNewSig csig b) mdl usg sr := by
  cases b with
  | text ds =>
    have h0 : (clFold pj (clCleanState cbs csig mdl usg sr)
        (blockEvents (BlockScript.text ds))).1 =
      (clFold pj (clCleanState cbs csig mdl usg sr)
        (ds.map (fun d => ClEvent.content_block_delta 0 (ClDelta.text_delta d)) ++
          [ClEvent.content_block_stop 0])).1 := rfl
    rw [h0, clFold_append_fst, clFold_text_deltas]
    dsimp only
    simp only [clCleanState]
    rw [String.empty_append]
    simp only [clFold, clStep, bne_self_eq_false, Bool.false_eq_true, if_false,
      blockAdds, blockNewSig]
    by_cases hds : strConcat ds = ""
    · rw [hds]
      simp
    · have hb : (strConcat ds != "") = true := by rw [bne_iff_ne]; exact hds
      simp [hb]
  | tool id name fs =>
    have h0 : (clFold pj (clCleanState cbs csig mdl usg sr)
        (blockEvents (BlockScript.tool id name fs))).1 =
      (clFold pj { clCleanState cbs csig mdl usg sr with
          current_tool_use := some { id := id, name := name, input := "" } }
        (fs.map (fun f => ClEvent.content_block_delta 0 (ClDelta.input_json_delta f)) ++
          [ClEvent.content_block_stop 0])).1 := rfl
    rw [h0, clFold_append_fst,
      clFold_json_deltas pj fs
        { clCleanState cbs csig mdl usg sr with
            current_tool_use := some { id := id, name := name, input := "" } }
        { id := id, name := name, input := "" } rfl]
    dsimp only
    simp only [clCleanState]
    rw [String.empty_append]
    simp only [clFold, clStep, bne_self_eq_false, Bool.false_eq_true, if_false,
      blockAdds, blockNewSig]
  | thinking ds s? =>
    cases s? with
    | none =>
      have h0 : (clFold pj (clCleanState cbs csig mdl usg sr)
          (blockEvents (BlockScript.thinking ds none))).1 =
        (clFold pj (clCleanState cbs csig mdl usg sr)
          (ds.map (fun d => ClEvent.content_block_delta 0 (ClDelta.thinking_delta d)) ++
            [] ++ [ClEvent.content_block_stop 0])).1 := rfl
      rw [h0, List.append_nil, clFold_append_fst, clFold_thinking_deltas]
      dsimp only
      simp only [clCleanState]
      rw [String.empty_append]
      simp only [clFold, clStep, bne_self_eq_false, Bool.false_eq_true, if_false,
        blockAdds, blockNewSig]
      by_cases hds : strConcat ds = ""
      · rw [hds]
        simp
      · have hb : (strConcat ds != "") = true := by rw [bne_iff_ne]; exact hds
        simp [hb]
    | some s =>
      have h0 : (clFold pj (clCleanState cbs csig mdl usg sr)
          (blockEvents (BlockScript.thinking ds (some s)))).1 =
        (clFold pj (clCleanState cbs csig mdl usg sr)
          (ds.map (fun d => ClEvent.content_block_delta 0 (ClDelta.thinking_delta d)) ++
            [ClEvent.content_block_delta 0 (ClDelta.signature_delta s)] ++
            [ClEvent.content_block_stop 0])).1 := rfl
      rw [h0, clFold_append_fst, clFold_append_fst, clFold_thinking_deltas]
      dsimp only
      simp only [clCleanState]
      rw [String.empty_append]
      simp only [clFold, clStep, bne_self_eq_false, Bool.false_eq_true, if_false,
        blockAdds, blockNewSig]
      by_cases hds : strConcat ds = ""
      · rw [hds]
        simp
      · have hb : (strConcat ds != "") = true := by rw [bne_iff_ne]; exact hds
        simp [hb]

theorem clFold_flatten_state (pj : String → Option Json) (scripts : List BlockScript)
    (cbs : List ContentBlock) (csig mdl : String) (usg : Option Usage)
    (sr : Option String) :
    (clFold pj (clCleanState cbs csig mdl usg sr) ((scripts.map blockEvents).flatten)).1 =
      clCleanState (cbs ++ assembleBlocks pj csig scripts) (scriptsNewSig csig scripts)
        mdl usg sr := by
  induction scripts generalizing cbs csig with
  | nil =>
    simp only [List.map_nil, List.flatten_nil, clFold, assembleBlocks, scriptsNewSig,
      List.append_nil]
  | cons b rest ih =>
    simp only [List.map_cons, List.flatten_cons]
    rw [clFold_append_fst, clFold_blockEvents, ih, assembleBlocks, scriptsNewSig,
      List.append_assoc]

theorem clFold_scriptEvents_state (pj : String → Option Json) (m : String)
    (sr : Option String) (scripts : List BlockScript) :
    (clFold pj clInit (scriptEvents m sr scripts)).1 =
      { content_blocks := assembleBlocks pj "" scripts, current_text := "",
        current_tool_use := none, current_thinking := "",
        current_sig := scriptsNewSig "" scripts, model := m, usage := none,
        stop_reason := sr } := by
  have h0 : (clFold pj clInit (scriptEvents m sr scripts)).1 =
      (clFold pj (clCleanState [] "" m none none)
        ((scripts.map blockEvents).flatten ++
          [ClEvent.message_delta sr none, ClEvent.message_stop])).1 := rfl
  rw [h0, clFold_append_fst, clFold_flatten_state]
  simp only [clFold, clStep, clCleanState, List.nil_append]

theorem textBlocksConcat_append (l1 l2 : List ContentBlock) :
    textBlocksConcat (l1 ++ l2) = textBlocksConcat l1 ++ textBlocksConcat l2 := by
  simp [textBlocksConcat, List.map_append, strConcat_append]

theorem textBlocksConcat_blockAdds (pj : String → Option Json) (sig : String)
    (b : BlockScript) :
    textBlocksConcat (blockAdds pj sig b) = scriptTextStr b := by
  cases b with
  | text ds =>
    simp only [blockAdds, scriptTextStr]
    by_cases hds : strConcat ds = ""
    · rw [hds]
      rfl
    · have hb : (strConcat ds != "") = true := by rw [bne_iff_ne]; exact hds
      rw [hb]
      simp [textBlocksConcat, strConcat, String.append_empty]
  | tool id name fs => rfl
  | thinking ds s? =>
    simp only [blockAdds, scriptTextStr]
    split
    · rfl
    · rfl

theorem textBlocksConcat_assembleBlocks (pj : String → Option Json) (sig : String)
    (scripts : List BlockScript) :
    textBlocksConcat (assembleBlocks pj sig scripts) =
      strConcat (scripts.map scriptTextStr) := by
  induction scripts generalizing sig with
  | nil => rfl
  | cons b rest ih =>
    simp only [assembleBlocks, List.map_cons, strConcat_cons]
    rw [textBlocksConcat_append, textBlocksConcat_blockAdds, ih]

/-- C7: stream → message consistency for both streaming providers.  For
the OpenAI dialect, over any chunk sequence: the text of the assembled
AssistantMessage (its TextBlock content, read as the concatenation of
its text blocks) equals the concatenation of the emitted text-delta
payloads, and every accumulated tool call holds exactly the
concatenation of its streamed argument fragments, with the
corresponding ToolUseBlock in the message carrying the parse of that
concatenation (the empty object when parsing fails).  For the Claude
dialect, over any well-formed vendor turn: the assembled message
content is exactly the blocks the scripts describe, and the
concatenation of the emitted text_delta payloads equals the text of the
message's text blocks. -/
theorem claim_C7_stream_message_consistency (pj : String → Option Json)
    (chunks : List OAChunk) (m : String) (sr : Option String)
    (scripts : List BlockScript) :
    (∀ a ∈ assistantsOf (oaStream pj chunks),
      textBlocksConcat a.content = textDeltaConcat "text" "text" (oaEvents chunks) ∧
      ∀ idx acc, oaLookup (oaFold oaInit chunks).1.tool_calls idx = some acc →
        acc.arguments = argPayloadConcat idx (oaEvents chunks) ∧
        ContentBlock.toolUse
          { id := acc.id,
            name := acc.name,
            input := oaParseArgs pj (argPayloadConcat idx (oaEvents chunks)) } ∈
            a.content) ∧
    (∀ a ∈ assistantsOf (clStream pj (scriptEvents m sr scripts)),
      a.content = assembleBlocks pj "" scripts ∧
      textDeltaConcat "text_delta" "text"
          (clEvents pj (scriptEvents m sr scripts)) = textBlocksConcat a.content) := by
  constructor
  · intro a ha
    rw [show assistantsOf (oaStream pj chunks) =
        [{ content := oaBlocks pj (oaFold oaInit chunks).1,
           model := some (oaFold oaInit chunks).1.model,
           finish_reason := oaMapFinishReason (oaFold oaInit chunks).1.finish_reason }]
      from assistantsOf_stream _ _ _] at ha
    obtain rfl := List.mem_singleton.mp ha
    have harg : ∀ idx acc,
        oaLookup (oaFold oaInit chunks).1.tool_calls idx = some acc →
        acc.arguments = argPayloadConcat idx (oaEvents chunks) := by
      intro idx acc hacc
      have h := oaFold_args chunks oaInit idx
      rw [hacc] at h
      have h2 : acc.arguments = "" ++ argPayloadConcat idx (oaEvents chunks) := h
      rw [String.empty_append] at h2
      exact h2
    refine ⟨?_, ?_⟩
    · show textBlocksConcat (oaBlocks pj (oaFold oaInit chunks).1) =
        textDeltaConcat "text" "text" (oaEvents chunks)
      rw [textBlocksConcat_oaBlocks, oaFold_text chunks oaInit,
        show oaInit.content_text = "" from rfl, String.empty_append]
      rfl
    · intro idx acc hacc
      refine ⟨harg idx acc hacc, ?_⟩
      show ContentBlock.toolUse
        { id := acc.id,
          name := acc.name,
          input := oaParseArgs pj (argPayloadConcat idx (oaEvents chunks)) } ∈
        oaBlocks pj (oaFold oaInit chunks).1
      rw [← harg idx acc hacc]
      exact oaBlocks_mem pj _ idx acc hacc
  · intro a ha
    rw [show assistantsOf (clStream pj (scriptEvents m sr scripts)) =
        [{ content := (clFold pj clInit (scriptEvents m sr scripts)).1.content_blocks,
           model := some (clFold pj clInit (scriptEvents m sr scripts)).1.model,
           finish_reason := clMapStopReason
             (clFold pj clInit (scriptEvents m sr scripts)).1.stop_reason }]
      from assistantsOf_stream _ _ _] at ha
    obtain rfl := List.mem_singleton.mp ha
    refine ⟨?_, ?_⟩
    · show (clFold pj clInit (scriptEvents m sr scripts)).1.content_blocks =
        assembleBlocks pj "" scripts
      rw [clFold_scriptEvents_state]
    · show textDeltaConcat "text_delta" "text"
          (clFold pj clInit (scriptEvents m sr scripts)).2 =
        textBlocksConcat (clFold pj clInit (scriptEvents m sr scripts)).1.content_blocks
      rw [clFold_textDelta, clFold_scriptEvents_state, scriptEvents_textStr,
        textBlocksConcat_assembleBlocks]

theorem claim_C7_witness :
    (c7OaMsg ∈ assistantsOf (oaStream (fun _ => none) c7Chunks) ∧
     oaLookup (oaFold oaInit c7Chunks).1.tool_calls 0 = some c7Acc ∧
     textBlocksConcat c7OaMsg.content =
       textDeltaConcat "text" "text" (oaEvents c7Chunks) ∧
     c7Acc.arguments = argPayloadConcat 0 (oaEvents c7Chunks) ∧
     ContentBlock.toolUse
       { id := c7Acc.id,
         name := c7Acc.name,
         input := oaParseArgs (fun _ => none) (argPayloadConcat 0 (oaEvents c7Chunks)) } ∈
       c7OaMsg.content) ∧
    (c7ClMsg ∈ assistantsOf (clStream (fun _ => none)
        (scriptEvents "mm" (some "end_turn") c7Scripts)) ∧
     c7ClMsg.content = assembleBlocks (fun _ => none) "" c7Scripts ∧
     textDeltaConcat "text_delta" "text"
         (clEvents (fun _ => none) (scriptEvents "mm" (some "end_turn") c7Scripts)) =
       textBlocksConcat c7ClMsg.content) := by
  have h := claim_C7_stream_message_consistency (fun _ => none) c7Chunks "mm"
    (some "end_turn") c7Scripts
  have hmemOA : c7OaMsg ∈ assistantsOf (oaStream (fun _ => none) c7Chunks) :=
    List.Mem.head _
  have hlk : oaLookup (oaFold oaInit c7Chunks).1.tool_calls 0 = some c7Acc := rfl
  have hmemCL : c7ClMsg ∈ assistantsOf (clStream (fun _ => none)
      (scriptEvents "mm" (some "end_turn") c7Scripts)) := List.Mem.head _
  obtain ⟨hoa, hcl⟩ := h
  obtain ⟨htext, hargs⟩ := hoa c7OaMsg hmemOA
  obtain ⟨harg, hblk⟩ := hargs 0 c7Acc hlk
  obtain ⟨hc, ht⟩ := hcl c7ClMsg hmemCL
  exact ⟨⟨hmemOA, hlk, htext, harg, hblk⟩, hmemCL, hc, ht⟩

end UAS
